import Mathlib

/-!
Verification of the task-orchestration engine of the `007_gemini_asst`
repository.  The definitions below are a shallow embedding of the Python
sources:

* `langgraph_agents/agents/task_decomposer.py`  (dependency graph, execution
  plan, parallel groups),
* `langgraph_agents/agents/base_agent.py`       (retry runtime, parallel
  fan-out),
* `langgraph_agents/state/manager.py`           (session store),
* `langgraph_agents/workflows/graph_definition.py` (workflow routing).

Python `dict`s are embedded as association lists with insertion-order
semantics (`dictInsert` overwrites in place, otherwise appends), Python
strings as `String`, ints as `Int`/`Nat`, floats as `Rat`, and `None`-able
values as `Option`.
-/

namespace GeminiAsst

/-! ## Dict embedding (Python `dict` as insertion-ordered association list) -/

/-- Python `d.get(k)` / `d[k]`: value of the first (unique) binding of `k`. -/
def dictLookup {α : Type} (d : List (String × α)) (k : String) : Option α :=
  (d.find? (fun p => p.1 == k)).map (fun p => p.2)

/-- Python `k in d`. -/
def dictMem {α : Type} (d : List (String × α)) (k : String) : Bool :=
  d.any (fun p => p.1 == k)

/-- Python `d[k] = v`: overwrite in place if present, else append. -/
def dictInsert {α : Type} (d : List (String × α)) (k : String) (v : α) :
    List (String × α) :=
  if d.any (fun p => p.1 == k) then
    d.map (fun p => if p.1 == k then (k, v) else p)
  else
    d ++ [(k, v)]

/-- Python `del d[k]`. -/
def dictErase {α : Type} (d : List (String × α)) (k : String) :
    List (String × α) :=
  d.filter (fun p => ¬ p.1 == k)

/-- Python `list(d.keys())` (insertion order). -/
def dictKeys {α : Type} (d : List (String × α)) : List String :=
  d.map (fun p => p.1)

/-! ## Data model (`state/models.py`) -/

/-- `TaskType` enum. -/
inductive TaskType where
  | notion | calendar | gmail | discord
deriving DecidableEq

/-- `TaskStatus` enum. -/
inductive TaskStatus where
  | pending | in_progress | completed | failed | cancelled
deriving DecidableEq

/-- `Priority` enum. -/
inductive Priority where
  | low | medium | high | urgent
deriving DecidableEq

/-- `TaskIntent` pydantic model.  `parameters : Dict[str, Any]` is embedded as
a string-valued dict: the engine only ever reads the string `task_id` out of
it. -/
structure TaskIntent where
  type : TaskType
  action : String
  parameters : List (String × String)
  priority : Priority
  dependencies : List String
deriving DecidableEq

/-- `parameters.get("task_id")`. -/
def TaskIntent.taskId (i : TaskIntent) : Option String :=
  dictLookup i.parameters "task_id"

/-! Dependency graphs: `Dict[str, List[str]]`. -/

abbrev Graph := List (String × List String)

/-- `graph.get(t, [])` - the declared dependencies of `t`. -/
def depsOf (g : Graph) (t : String) : List String :=
  (dictLookup g t).getD []

/-! ## Task Decomposer (`agents/task_decomposer.py`) -/

/-- The body of the loop in `_build_dependency_graph`: if
`intent.parameters.get("task_id")` is truthy (a non-empty string), set
`graph[task_id] = intent.dependencies.copy()`. -/
def graphStep (g : Graph) (intent : TaskIntent) : Graph :=
  match intent.taskId with
  | some tid => if tid ≠ "" then dictInsert g tid intent.dependencies else g
  | none => g

/-- The graph-building loop of `_build_dependency_graph`. -/
def buildGraphRaw (intents : List TaskIntent) : Graph :=
  intents.foldl graphStep []

/-- Truthiness of `intent.parameters.get("task_id")`. -/
def truthyTaskId (i : TaskIntent) : Bool :=
  match i.taskId with
  | some tid => tid ≠ ""
  | none => false

/-!
The `dfs` closure in `_has_circular_dependency`: `dfsNeighbors` walks
`graph.get(node, [])`; `dfsVisit` is one `dfs(node, …)` call.  The shared
mutable `visited` set is threaded through and returned (`none` signals that a
cycle was found, i.e. the Python `dfs` returned `True`); the `rec_stack` set
is passed down and restored on return exactly as the Python add/remove pair
does.  Both functions are total via a fuel argument; `dfsFuel` below is far
larger than the number of steps the traversal of a finite graph can take.
-/

mutual

/-- Neighbour loop of the `dfs` closure (see the section comment). -/
def dfsNeighbors (g : Graph) : Nat → List String → List String → List String →
    Option (List String)
  | 0, _, _, _ => none
  | _ + 1, [], visited, _ => some visited
  | fuel + 1, n :: rest, visited, recStack =>
    if n ∈ visited then
      if n ∈ recStack then none else dfsNeighbors g fuel rest visited recStack
    else
      match dfsVisit g fuel n visited recStack with
      | none => none
      | some visited' => dfsNeighbors g fuel rest visited' recStack

/-- One `dfs(node, visited, rec_stack)` call (see `dfsNeighbors`). -/
def dfsVisit (g : Graph) : Nat → String → List String → List String →
    Option (List String)
  | 0, _, _, _ => none
  | fuel + 1, node, visited, recStack =>
    dfsNeighbors g fuel (depsOf g node) (node :: visited) (node :: recStack)
end

/-- Fuel bound: twice the number of nodes plus edges, plus slack. -/
def dfsFuel (g : Graph) : Nat :=
  2 * (g.length + (g.map (fun p => p.2.length)).sum) + 2

/-- Top-level loop of `_has_circular_dependency`: `for node in graph: if node
not in visited: if dfs(node, visited, set()): return True`. -/
def hasCircGo (g : Graph) : List String → List String → Bool
  | [], _ => false
  | n :: rest, visited =>
    if n ∈ visited then hasCircGo g rest visited
    else
      match dfsVisit g (dfsFuel g) n visited [] with
      | none => true
      | some visited' => hasCircGo g rest visited'

/-- `_has_circular_dependency`. -/
def hasCircularDependency (g : Graph) : Bool :=
  hasCircGo g (dictKeys g) []

/-- `_resolve_circular_dependency`: keep only dependency edges whose target is
a key of the graph. -/
def resolveCircularDependency (g : Graph) : Graph :=
  g.map (fun p => (p.1, p.2.filter (fun d => decide (d ∈ dictKeys g))))

/-- `_build_dependency_graph`. -/
def buildDependencyGraph (intents : List TaskIntent) : Graph :=
  let graph := buildGraphRaw intents
  if hasCircularDependency graph then resolveCircularDependency graph
  else graph

/-- `_get_priority_value` (`None` maps to 2, i.e. medium). -/
def getPriorityValue : Option TaskIntent → Nat
  | none => 2
  | some i =>
    match i.priority with
    | .urgent => 0
    | .high => 1
    | .medium => 2
    | .low => 3

/-- The dict comprehension `{intent.parameters.get("task_id"): intent for
intent in intents}` followed by `.get(tid)`: the last intent whose `task_id`
equals `tid` wins. -/
def intentMapGet (intents : List TaskIntent) (tid : String) :
    Option TaskIntent :=
  intents.foldl
    (fun acc i => if i.taskId == some tid then some i else acc) none

/-- The in-degree `_create_execution_plan` computes for a graph key: the
number of its dependencies (with multiplicity) that are themselves keys. -/
def initCount (g : Graph) (t : String) : Nat :=
  (depsOf g t).countP (fun d => decide (d ∈ dictKeys g))

/-- Comparison used by Python's `queue.sort()` on `(priority, task_id)`
tuples (lexicographic; the exact tie-breaking never matters because task ids
in the queue are distinct). -/
def pairLe (a b : Nat × String) : Bool :=
  a.1 < b.1 || (a.1 == b.1 && !(decide (b.2 < a.2)))

/-- Sorted insertion, the building block of `sortPairs`. -/
def insertPair (x : Nat × String) : List (Nat × String) → List (Nat × String)
  | [] => [x]
  | y :: ys => if pairLe x y then x :: y :: ys else y :: insertPair x ys

/-- `queue.sort()`. -/
def sortPairs (l : List (Nat × String)) : List (Nat × String) :=
  l.foldr insertPair []

/-- Initial ready queue of `_create_execution_plan`: in-degree-0 keys, pushed
in key order and then sorted. -/
def seedQueue (g : Graph) (prio : String → Nat) : List (Nat × String) :=
  sortPairs ((dictKeys g).filterMap
    (fun t => if initCount g t = 0 then some (prio t, t) else none))

/-- The inner `for task_id, dependencies in dependency_graph.items()` loop run
after popping `cur`: decrement the in-degree of every key that depends on
`cur`; whenever a degree reaches 0, append the key to the queue and re-sort.
In-degrees are Python ints, hence `Int`-valued (they can go negative when a
task lists the same dependency twice). -/
def stepFold (cur : String) (prio : String → Nat) :
    Graph → (String → Int) → List (Nat × String) →
    ((String → Int) × List (Nat × String))
  | [], deg, q => (deg, q)
  | (t, deps) :: rest, deg, q =>
    if cur ∈ deps then
      let deg' := fun x => if x = t then deg t - 1 else deg x
      if deg t - 1 = 0 then
        stepFold cur prio rest deg' (sortPairs (q ++ [(prio t, t)]))
      else stepFold cur prio rest deg' q
    else stepFold cur prio rest deg q

/-- The `while queue:` loop of `_create_execution_plan`.  Fuel-indexed: each
iteration pops one queue entry and every key enters the queue at most once,
so `g.length + 1` fuel (used below) is never exhausted. -/
def kahnLoop (g : Graph) (prio : String → Nat) :
    Nat → (String → Int) → List (Nat × String) → List String → List String
  | 0, _, _, order => order
  | fuel + 1, deg, queue, order =>
    match queue with
    | [] => order
    | (_, cur) :: rest =>
      let s := stepFold cur prio g deg rest
      kahnLoop g prio fuel s.1 s.2 (order ++ [cur])

/-- `_create_execution_plan`. -/
def createExecutionPlan (g : Graph) (intents : List TaskIntent) :
    List String :=
  let prio := fun t => getPriorityValue (intentMapGet intents t)
  kahnLoop g prio (g.length + 1) (fun t => (initCount g t : Int))
    (seedQueue g prio) []

/-- `task_id.split("_")[0]`: the characters before the first underscore
(`"x".split("_")[0]` is `"x"` itself when there is no underscore, and `""`
for the empty string or a leading underscore). -/
def serviceOf (tid : String) : String :=
  String.mk (tid.toList.takeWhile (fun c => c ≠ '_'))

/-- Equality of the two-element Python sets `{a, b}` and `{c, d}`. -/
def setPairEq (a b c d : String) : Bool :=
  (a == c || a == d) && (b == c || b == d) &&
    (c == a || c == b) && (d == a || d == b)

/-- `service_pair in safe_combinations`. -/
def servicePairSafe (s1 s2 : String) : Bool :=
  setPairEq s1 s2 "gmail" "calendar" || setPairEq s1 s2 "notion" "discord" ||
    setPairEq s1 s2 "gmail" "discord"

/-- `_has_conflict`. -/
def hasConflict (t1 t2 : String) : Bool :=
  !servicePairSafe (serviceOf t1) (serviceOf t2) &&
    serviceOf t1 == serviceOf t2

/-- `_get_agent_name`. -/
def getAgentName (tid : String) : String :=
  (dictLookup
    [("notion", "notion_agent"), ("calendar", "calendar_agent"),
     ("gmail", "gmail_agent"), ("discord", "discord_agent")]
    (serviceOf tid)).getD "unknown_agent"

/-- One entry `{"task_id": …, "agent": …}` of a parallel group. -/
structure GroupEntry where
  task_id : String
  agent : String
deriving DecidableEq

/-- Loop body of `_create_parallel_groups`: try to add `tid` to the current
group, else close the group and start a new one. -/
def cpgStep (acc : List (List GroupEntry) × List GroupEntry) (tid : String) :
    List (List GroupEntry) × List GroupEntry :=
  let canRunParallel := acc.2.all (fun ex => !hasConflict tid ex.task_id)
  if canRunParallel && acc.2.length < 3 then
    (acc.1, acc.2 ++ [⟨tid, getAgentName tid⟩])
  else
    ((if acc.2.isEmpty then acc.1 else acc.1 ++ [acc.2]),
      [⟨tid, getAgentName tid⟩])

/-- `_create_parallel_groups`. -/
def createParallelGroups (plan : List String) : List (List GroupEntry) :=
  let acc := plan.foldl cpgStep ([], [])
  if acc.2.isEmpty then acc.1 else acc.1 ++ [acc.2]

/-- The decomposition triple stored in the `result` dict of the Task
Decomposer's successful `ExecutionResult`. -/
structure DecompOutput where
  dependency_graph : Graph
  execution_plan : List String
  parallel_groups : List (List GroupEntry)
  total_groups : Nat
deriving DecidableEq

/-- The pure pipeline of `TaskDecomposerAgent.execute`. -/
def decompose (intents : List TaskIntent) : DecompOutput :=
  let g := buildDependencyGraph intents
  let plan := createExecutionPlan g intents
  let groups := createParallelGroups plan
  ⟨g, plan, groups, groups.length⟩

/-- The dependencies of `t` that are themselves keys of the graph (the only
ones `_create_execution_plan` counts). -/
def inGraphDeps (g : Graph) (t : String) : List String :=
  (depsOf g t).filter (fun d => decide (d ∈ dictKeys g))

/-- A plan is a valid topological order for `g` when every in-graph
dependency of every planned task appears at an earlier position of the
plan. -/
def isValidTopo (g : Graph) (plan : List String) : Prop :=
  ∀ i (h : i < plan.length), ∀ d ∈ inGraphDeps g (plan.get ⟨i, h⟩),
    d ∈ plan.take i

/-- The invariant of the Kahn loop in `_create_execution_plan`, tying the
in-degree table `deg` and the ready queue to the order emitted so far. -/
structure KahnInv (g : Graph) (deg : String → Int)
    (queue : List (Nat × String)) (order : List String) : Prop where
  order_nodup : order.Nodup
  order_keys : ∀ t ∈ order, t ∈ dictKeys g
  order_topo : ∀ i (h : i < order.length),
    ∀ d ∈ inGraphDeps g (order.get ⟨i, h⟩), d ∈ order.take i
  queue_keys : ∀ p ∈ queue, p.2 ∈ dictKeys g
  queue_done : ∀ p ∈ queue, ∀ d ∈ inGraphDeps g p.2, d ∈ order
  queue_fresh : ∀ p ∈ queue, p.2 ∉ order
  queue_nodup : (queue.map (fun p => p.2)).Nodup
  deg_acc : ∀ t ∈ dictKeys g,
    deg t = (initCount g t : Int) -
      ((order.filter (fun u => decide (u ∈ depsOf g t))).length : Int)
  deg_nonpos : ∀ t, t ∈ dictKeys g →
    (t ∈ order ∨ t ∈ queue.map (fun p => p.2)) → deg t ≤ 0

/-! ## Execution results and the retry runtime (`agents/base_agent.py`) -/

/-- Payload of the `result : Optional[Dict]` field of an `ExecutionResult`:
either the Task Decomposer's decomposition dict or some other payload, kept
opaque (no engine code inspects it). -/
inductive ResultVal where
  | decomp (d : DecompOutput)
  | raw (s : String)
deriving DecidableEq

/-- `ExecutionResult` pydantic model (floats as `Rat`). -/
structure ExecutionResult where
  task_id : String
  status : TaskStatus
  result : Option ResultVal := none
  error : Option String := none
  execution_time : Option Rat := none
  retry_count : Nat := 0
deriving DecidableEq

/-- `TaskDecomposerAgent.execute` (its `try` body is total, so the COMPLETED
branch is always taken). -/
def taskDecomposerExecute (intents : List TaskIntent)
    (task_params : List (String × String)) : ExecutionResult :=
  { task_id := (dictLookup task_params "task_id").getD "task_decomposition"
    status := .completed
    result := some (.decomp (decompose intents)) }

/-- Outcome of one `await self.execute(state, task_params)` call inside
`_execute_with_retry`: a returned result or a raised exception (message). -/
inductive Attempt where
  | ok (r : ExecutionResult)
  | exn (e : String)
deriving DecidableEq

/-- Rendering of Python `f"{last_error}"` for an `Optional[str]`. -/
def pyOptStr : Option String → String
  | none => "None"
  | some s => s

/-- The synthetic result returned after the retry loop falls through. -/
def maxRetriesResult (taskIdParam : Option String) (name : String)
    (lastError : String) (maxRetries : Nat) : ExecutionResult :=
  { task_id := taskIdParam.getD (name ++ "_failed")
    status := .failed
    error := some ("Max retries exceeded. Last error: " ++ lastError)
    retry_count := maxRetries }

/-- The `for attempt in range(max_retries + 1)` loop of
`_execute_with_retry`.  `outcomes i` is what the `i`-th `execute` call does;
`lastError` carries the rendered `last_error`; the second component of the
value counts how many times `execute` was invoked.  Structural recursion on
`remaining`, the number of attempts the `range` still offers; the `remaining
= 0` base case is the fall-through `return` after the loop. -/
def retryGo (outcomes : Nat → Attempt) (maxRetries : Nat)
    (taskIdParam : Option String) (name : String) :
    Nat → Nat → String → Nat → ExecutionResult × Nat
  | 0, _, lastError, calls =>
    (maxRetriesResult taskIdParam name lastError maxRetries, calls)
  | remaining + 1, attempt, lastError, calls =>
    match outcomes attempt with
    | .ok r =>
      let r := { r with retry_count := attempt }
      if r.status = .completed then (r, calls + 1)
      else if r.status = .failed ∧ attempt < maxRetries then
        retryGo outcomes maxRetries taskIdParam name remaining (attempt + 1)
          (pyOptStr r.error) (calls + 1)
      else (r, calls + 1)
    | .exn e =>
      if attempt = maxRetries then
        (maxRetriesResult taskIdParam name e maxRetries, calls + 1)
      else
        retryGo outcomes maxRetries taskIdParam name remaining (attempt + 1)
          e (calls + 1)

/-- `BaseAgent._execute_with_retry` (default `max_retries = 3`), returning
the result together with the number of `execute` invocations made. -/
def executeWithRetry (outcomes : Nat → Attempt) (maxRetries : Nat)
    (taskIdParam : Option String) (name : String) : ExecutionResult × Nat :=
  retryGo outcomes maxRetries taskIdParam name (maxRetries + 1) 0 "None" 0

/-- An attempt that "fails": the `execute` call returned a FAILED result or
raised. -/
def attemptFails : Attempt → Prop
  | .ok r => r.status = .failed
  | .exn _ => True

instance : DecidablePred attemptFails := fun a =>
  match a with
  | .ok r => inferInstanceAs (Decidable (r.status = .failed))
  | .exn _ => inferInstanceAs (Decidable True)

/-! ## Bounded parallel fan-out (`AgentExecutor.execute_parallel`) -/

/-- One `{"task_id": …, "agent": …}` dict of a batch. -/
structure TaskDict where
  task_id : Option String
  agent : Option String
deriving DecidableEq

/-- What `execute_with_semaphore(task)` does for one task: return a result or
let an exception escape (`asyncio.gather(…, return_exceptions=True)` then
hands the exception back in the task's slot). -/
abbrev TaskOracle := TaskDict → Except String ExecutionResult

/-- The post-processing of one `gather` slot: exceptions are converted to a
FAILED result named after `tasks[i].get("task_id", f"task_{i}")`. -/
def processSlot (tasks : List TaskDict) (i : Nat)
    (r : Except String ExecutionResult) : ExecutionResult :=
  match r with
  | .ok r => r
  | .error e =>
    { task_id :=
        match tasks.get? i with
        | some t => t.task_id.getD ("task_" ++ toString i)
        | none => "task_" ++ toString i
      status := .failed
      error := some e }

/-- `AgentExecutor.execute_parallel` (the semaphore bounds concurrency but
does not reorder `gather`'s result list). -/
def executeParallel (oracle : TaskOracle) (tasks : List TaskDict) :
    List ExecutionResult :=
  let results := tasks.map oracle
  results.enum.map (fun p => processSlot tasks p.1 p.2)

/-! ## Workflow state and session store (`state/models.py`, `state/manager.py`) -/

/-- The `recovery_strategy` dict produced by
`AgenticWorkflow._analyze_failures`. -/
structure RecoveryStrategy where
  failure_types : List (String × Nat)
  recoverable : Bool
  suggested_action : String
deriving DecidableEq

/-- Values stored in the `context : Dict[str, Any]` scratch space (only the
kinds of values the engine actually writes). -/
inductive PyVal where
  | pint (n : Int)
  | pstr (s : String)
  | pstrList (l : List String)
  | precov (r : RecoveryStrategy)
deriving DecidableEq

/-- `WorkflowState` pydantic model (datetimes as `Nat` ticks, floats as
`Rat`). -/
structure WorkflowState where
  session_id : String
  user_input : String
  original_message : String
  intents : List TaskIntent := []
  is_multi_task : Bool := false
  task_results : List (String × ExecutionResult) := []
  current_step : String := "start"
  context : List (String × PyVal) := []
  created_at : Nat
  updated_at : Nat
  performance_metrics : List (String × Rat) := []
  confidence_scores : List (String × Rat) := []
deriving DecidableEq

/-- `AgentMetrics` pydantic model. -/
structure AgentMetrics where
  agent_name : String
  total_executions : Nat := 0
  successful_executions : Nat := 0
  failed_executions : Nat := 0
  average_execution_time : Rat := 0
  last_execution : Option Nat := none
deriving DecidableEq

/-- `SystemState` pydantic model. -/
structure SystemState where
  active_sessions : List (String × WorkflowState) := []
  agent_metrics : List (String × AgentMetrics) := []
  global_context : List (String × PyVal) := []
deriving DecidableEq

/-- The fresh `WorkflowState(...)` built by `create_session`. -/
def newWorkflowState (session_id user_input original_message : String)
    (now : Nat) : WorkflowState :=
  { session_id := session_id
    user_input := user_input
    original_message := original_message
    created_at := now
    updated_at := now }

/-- `StateManager.create_session`: the generated `str(uuid.uuid4())` and the
current time are passed in explicitly (they are ambient effects in Python). -/
def createSession (st : SystemState) (sessionId : String)
    (user_input original_message : String) (now : Nat) :
    String × SystemState :=
  (sessionId,
    { st with
        active_sessions :=
          dictInsert st.active_sessions sessionId
            (newWorkflowState sessionId user_input original_message now) })

/-- One `key=value` keyword argument of `update_session`.  A constructor per
attribute that `hasattr(session, key)` accepts (writable engine fields); the
`unknownField` case is any key for which `hasattr` is false and which
`update_session` therefore skips. -/
inductive FieldUpdate where
  | user_input (v : String)
  | original_message (v : String)
  | intents (v : List TaskIntent)
  | is_multi_task (v : Bool)
  | task_results (v : List (String × ExecutionResult))
  | current_step (v : String)
  | context (v : List (String × PyVal))
  | unknownField (key : String)
deriving DecidableEq

/-- `if hasattr(session, key): setattr(session, key, value)`. -/
def applyFieldUpdate (s : WorkflowState) : FieldUpdate → WorkflowState
  | .user_input v => { s with user_input := v }
  | .original_message v => { s with original_message := v }
  | .intents v => { s with intents := v }
  | .is_multi_task v => { s with is_multi_task := v }
  | .task_results v => { s with task_results := v }
  | .current_step v => { s with current_step := v }
  | .context v => { s with context := v }
  | .unknownField _ => s

/-- `StateManager.update_session`. -/
def updateSession (st : SystemState) (sessionId : String)
    (kwargs : List FieldUpdate) (now : Nat) : Bool × SystemState :=
  match dictLookup st.active_sessions sessionId with
  | none => (false, st)
  | some session =>
    let session := kwargs.foldl applyFieldUpdate session
    let session := { session with updated_at := now }
    (true,
      { st with
          active_sessions := dictInsert st.active_sessions sessionId session })

/-- `StateManager.add_execution_result`. -/
def addExecutionResult (st : SystemState) (sessionId taskId : String)
    (result : ExecutionResult) (now : Nat) : Bool × SystemState :=
  match dictLookup st.active_sessions sessionId with
  | none => (false, st)
  | some session =>
    let session :=
      { session with
          task_results := dictInsert session.task_results taskId result
          updated_at := now }
    (true,
      { st with
          active_sessions := dictInsert st.active_sessions sessionId session })

/-- `StateManager.close_session`. -/
def closeSession (st : SystemState) (sessionId : String) :
    Bool × SystemState :=
  if dictMem st.active_sessions sessionId then
    (true,
      { st with active_sessions := dictErase st.active_sessions sessionId })
  else (false, st)

/-! ## Workflow routing (`workflows/graph_definition.py`) -/

/-- `context.get(key, default)` for an int-valued entry. -/
def ctxGetInt (ctx : List (String × PyVal)) (key : String) (dflt : Int) :
    Int :=
  match dictLookup ctx key with
  | some (.pint n) => n
  | _ => dflt

/-- `context.get(key, [])` for a string-list-valued entry. -/
def ctxGetStrList (ctx : List (String × PyVal)) (key : String) :
    List String :=
  match dictLookup ctx key with
  | some (.pstrList l) => l
  | _ => []

/-- `error.lower()` contains `needle` (Python `needle in error_lower`). -/
def strContainsSub (hay needle : String) : Bool :=
  hay.toList.tails.any (fun suf => needle.toList.isPrefixOf suf)

/-- `error_message.lower()`, character by character. -/
def pyToLower (s : String) : String :=
  String.mk (s.toList.map Char.toLower)

/-- `AgenticWorkflow._categorize_error`. -/
def categorizeError (error_message : String) : String :=
  let lower := pyToLower error_message
  if strContainsSub lower "timeout" || strContainsSub lower "connection" then
    "network_error"
  else if strContainsSub lower "auth" || strContainsSub lower "permission"
  then "auth_error"
  else if strContainsSub lower "not found" then "not_found_error"
  else "unknown_error"

/-- `AgenticWorkflow._analyze_failures` (pure: it only reads the state).
`recoverable` uses Python floor division `len(task_results) // 2`. -/
def analyzeFailures (state : WorkflowState) (failed_tasks : List String) :
    RecoveryStrategy :=
  let failure_types :=
    failed_tasks.foldl
      (fun ft tid =>
        match dictLookup state.task_results tid with
        | some r =>
          match r.error with
          | some e =>
            if e ≠ "" then
              let et := categorizeError e
              dictInsert ft et ((dictLookup ft et).getD 0 + 1)
            else ft
          | none => ft
        | none => ft)
      []
  { failure_types := failure_types
    recoverable := failed_tasks.length < state.task_results.length / 2
    suggested_action :=
      if failed_tasks.length ≤ 2 then "retry" else "manual_review" }

/-- The failed-task id list computed by `_error_handling_node`. -/
def failedTasksOf (state : WorkflowState) : List String :=
  state.task_results.filterMap
    (fun p => if p.2.status = .failed then some p.1 else none)

/-- `AgenticWorkflow._error_handling_node` (state mutation only; the
`ExecutionResult` bookkeeping of other nodes is not needed here). -/
def errorHandlingNode (state : WorkflowState) : WorkflowState :=
  let failed := failedTasksOf state
  let ctx := dictInsert state.context "failed_tasks" (.pstrList failed)
  let ctx :=
    dictInsert ctx "retry_count" (.pint (ctxGetInt ctx "retry_count" 0 + 1))
  let strategy := analyzeFailures state failed
  let ctx := dictInsert ctx "recovery_strategy" (.precov strategy)
  { state with context := ctx, current_step := "error_handled" }

/-- `AgenticWorkflow._route_after_error_handling`. -/
def routeAfterErrorHandling (state : WorkflowState) : String :=
  let retry_count := ctxGetInt state.context "retry_count" 0
  if retry_count < 2 then "retry"
  else
    let failed_count := (ctxGetStrList state.context "failed_tasks").length
    if failed_count < state.task_results.length then "complete"
    else "notify"

/-- `AgenticWorkflow._route_after_intent_analysis`. -/
def routeAfterIntentAnalysis (state : WorkflowState) : String :=
  match state.intents with
  | [] => "error"
  | [i] => if i.dependencies.isEmpty then "simple" else "complex"
  | _ => "complex"

/-- The conditional-edge dict that `_build_graph` registers on the
`error_handling` node. -/
def errorHandlingEdges : List (String × String) :=
  [("retry", "parallel_execution"), ("notify", "notification"),
   ("complete", "result_aggregation")]

/-! ## Concrete example data used by witnesses and counterexamples -/

/-- An intent for sending an email, task id `gmail_1`, no dependencies. -/
def exIntentGmail : TaskIntent :=
  { type := .gmail
    action := "send"
    parameters := [("task_id", "gmail_1")]
    priority := .high
    dependencies := [] }

/-- An intent for a notion memo, task id `notion_2`, depending on
`gmail_1`. -/
def exIntentNotion : TaskIntent :=
  { type := .notion
    action := "create_memo"
    parameters := [("task_id", "notion_2")]
    priority := .medium
    dependencies := ["gmail_1"] }

/-- An intent whose parameters carry no `task_id` entry at all. -/
def exIntentNoId : TaskIntent :=
  { type := .discord
    action := "notify"
    parameters := []
    priority := .low
    dependencies := [] }

/-- A two-intent session with an acyclic dependency graph. -/
def exIntentsAcyclic : List TaskIntent := [exIntentGmail, exIntentNotion]

/-- A session mixing id-carrying intents with an id-less one. -/
def exIntentsMixed : List TaskIntent :=
  [exIntentGmail, exIntentNoId, exIntentNotion]

/-- A FAILED execution result for task `t` with error `e`. -/
def exFailed (t e : String) : ExecutionResult :=
  { task_id := t, status := .failed, error := some e }

/-- A COMPLETED execution result for task `t`. -/
def exCompleted (t : String) : ExecutionResult :=
  { task_id := t, status := .completed }

/-- Attempt outcomes where every `execute` call raises. -/
def exOutcomesAllRaise : Nat → Attempt := fun _ => .exn "boom"

/-- Attempt outcomes: first call returns FAILED, second returns COMPLETED. -/
def exOutcomesRecover : Nat → Attempt := fun i =>
  if i = 0 then .ok (exFailed "gmail_1" "timeout") else .ok (exCompleted "gmail_1")

/-- A session state that took the sequential (simple) path — a single
dependency-free intent — and whose only task failed, as it reaches the
`error_handling` node for the first time. -/
def exSeqBase : WorkflowState :=
  { session_id := "s1"
    user_input := "send the mail"
    original_message := "send the mail"
    intents := [exIntentGmail]
    task_results := [("gmail_1", exFailed "gmail_1" "timeout")]
    current_step := "executed"
    created_at := 0
    updated_at := 0 }

/-- `exSeqBase` after `error_handling` ran once (`retry_count = 1`). -/
def exSeqState : WorkflowState := errorHandlingNode exSeqBase

/-- A session with three recorded task results of which exactly one failed. -/
def exThirdFailedState : WorkflowState :=
  { session_id := "s2"
    user_input := "do three things"
    original_message := "do three things"
    task_results :=
      [("gmail_1", exCompleted "gmail_1"),
       ("notion_2", exCompleted "notion_2"),
       ("discord_3", exFailed "discord_3" "connection reset")]
    current_step := "executed"
    created_at := 0
    updated_at := 0 }

/-- A session state with the workflow retry counter already at 2 and every
recorded task failed, as it reaches `error_handling` again. -/
def exAllFailedBase : WorkflowState :=
  { session_id := "s3"
    user_input := "x"
    original_message := "x"
    task_results := [("gmail_1", exFailed "gmail_1" "timeout")]
    context := [("retry_count", .pint 2)]
    current_step := "executed"
    created_at := 0
    updated_at := 0 }

/-- A batch of two task dicts, the second without a `task_id`. -/
def exBatch : List TaskDict :=
  [⟨some "gmail_1", some "gmail_agent"⟩, ⟨none, some "unknown_agent"⟩]

/-- An oracle under which the first task succeeds and the second raises. -/
def exOracle : TaskOracle := fun t =>
  if t.task_id = some "gmail_1" then .ok (exCompleted "gmail_1")
  else .error "agent blew up"

/-! ## Retry-runtime lemmas and claims C3, C4 -/

lemma retryGo_bounds (o : Nat → Attempt) (m : Nat) (tip : Option String)
    (name : String) :
    ∀ remaining attempt lastError calls,
      attempt + remaining = m + 1 →
      (retryGo o m tip name remaining attempt lastError calls).1.retry_count ≤ m ∧
        (retryGo o m tip name remaining attempt lastError calls).2 ≤
          calls + remaining := by
  intro remaining
  induction remaining with
  | zero =>
    intro attempt lastError calls _
    simp [retryGo, maxRetriesResult]
  | succ n ih =>
    intro attempt lastError calls harith
    have hatt : attempt ≤ m := by omega
    simp only [retryGo]
    cases h : o attempt with
    | ok r =>
      by_cases hc : ({ r with retry_count := attempt } : ExecutionResult).status = .completed
      · simp only [if_pos hc]
        constructor
        · exact hatt
        · omega
      · simp only [if_neg hc]
        by_cases hf : ({ r with retry_count := attempt } : ExecutionResult).status = .failed ∧ attempt < m
        · simp only [if_pos hf]
          have h1 := ih (attempt + 1) (pyOptStr r.error) (calls + 1) (by omega)
          exact ⟨h1.1, by omega⟩
        · simp only [if_neg hf]
          exact ⟨hatt, by omega⟩
    | exn e =>
      by_cases hm : attempt = m
      · simp only [if_pos hm]
        exact ⟨by simp [maxRetriesResult], by omega⟩
      · simp only [if_neg hm]
        have := ih (attempt + 1) e (calls + 1) (by omega)
        exact ⟨this.1, by omega⟩

/-- C3: on every terminal result of `_execute_with_retry` the retry counter
is at most `max_retries`, and the underlying `execute` is invoked at most
`max_retries + 1` times. -/
theorem retry_count_bounded (o : Nat → Attempt) (m : Nat) (tip : Option String)
    (name : String) :
    (executeWithRetry o m tip name).1.retry_count ≤ m ∧
      (executeWithRetry o m tip name).2 ≤ m + 1 := by
  have := retryGo_bounds o m tip name (m + 1) 0 "None" 0 (by omega)
  simp only [executeWithRetry]
  exact ⟨this.1, by omega⟩

lemma retryGo_allFail (o : Nat → Attempt) (m : Nat) (tip : Option String)
    (name : String) (hfail : ∀ i, i ≤ m → attemptFails (o i)) :
    ∀ remaining attempt lastError calls,
      attempt ≤ m → attempt + remaining = m + 1 →
      (retryGo o m tip name remaining attempt lastError calls).1.status = .failed ∧
      (retryGo o m tip name remaining attempt lastError calls).1.retry_count = m ∧
      (∀ r, o m = .ok r →
        (retryGo o m tip name remaining attempt lastError calls).1.error = r.error) ∧
      (∀ e, o m = .exn e →
        (retryGo o m tip name remaining attempt lastError calls).1.error =
          some ("Max retries exceeded. Last error: " ++ e)) := by
  intro remaining
  induction remaining with
  | zero => intro attempt lastError calls hle harith; omega
  | succ n ih =>
    intro attempt lastError calls hle harith
    simp only [retryGo]
    cases h : o attempt with
    | ok r =>
      have hfr : r.status = .failed := by
        have := hfail attempt hle
        rw [h] at this
        exact this
      have hnc : ¬ ({ r with retry_count := attempt } : ExecutionResult).status = .completed := by
        simp [hfr]
      simp only [if_neg hnc]
      by_cases hm : attempt < m
      · have hcond : ({ r with retry_count := attempt } : ExecutionResult).status = .failed ∧ attempt < m := ⟨by simp [hfr], hm⟩
        simp only [if_pos hcond]
        exact ih (attempt + 1) _ (calls + 1) (by omega) (by omega)
      · have ham : attempt = m := by omega
        have hcond : ¬ (({ r with retry_count := attempt } : ExecutionResult).status = .failed ∧ attempt < m) := by
          intro hc; exact hm hc.2
        simp only [if_neg hcond]
        refine ⟨by simp [hfr], by simp [ham], ?_, ?_⟩
        · intro r' hr'
          rw [ham] at h
          rw [h] at hr'
          cases hr'
          rfl
        · intro e he
          rw [ham] at h
          rw [h] at he
          cases he
    | exn e =>
      by_cases hm : attempt = m
      · simp only [if_pos hm]
        refine ⟨rfl, rfl, ?_, ?_⟩
        · intro r' hr'
          rw [hm] at h
          rw [h] at hr'
          cases hr'
        · intro e' he'
          rw [hm] at h
          rw [h] at he'
          cases he'
          rfl
      · simp only [if_neg hm]
        exact ih (attempt + 1) e (calls + 1) (by omega) (by omega)

lemma retryGo_completedAt (o : Nat → Attempt) (m : Nat) (tip : Option String)
    (name : String) (k : Nat) (res : ExecutionResult) (hk : k ≤ m)
    (hfail : ∀ i, i < k → attemptFails (o i)) (hok : o k = .ok res)
    (hres : res.status = .completed) :
    ∀ remaining attempt lastError calls,
      attempt ≤ k → attempt + remaining = m + 1 →
      retryGo o m tip name remaining attempt lastError calls =
        ({ res with retry_count := k }, calls + (k - attempt) + 1) := by
  intro remaining
  induction remaining with
  | zero => intro attempt lastError calls hle harith; omega
  | succ n ih =>
    intro attempt lastError calls hle harith
    simp only [retryGo]
    by_cases hak : attempt = k
    · subst hak
      rw [hok]
      have hc : ({ res with retry_count := attempt } : ExecutionResult).status = .completed := by
        simp [hres]
      simp only [if_pos hc]
      simp
    · have hlt : attempt < k := by omega
      have hfa := hfail attempt hlt
      cases h : o attempt with
      | ok r =>
        rw [h] at hfa
        have hfr : r.status = .failed := hfa
        have hnc : ¬ ({ r with retry_count := attempt } : ExecutionResult).status = .completed := by
          simp [hfr]
        have hcond : ({ r with retry_count := attempt } : ExecutionResult).status = .failed ∧ attempt < m := ⟨by simp [hfr], by omega⟩
        simp only [if_neg hnc, if_pos hcond]
        rw [ih (attempt + 1) _ (calls + 1) (by omega) (by omega)]
        congr 2
        omega
      | exn e =>
        have hm : ¬ attempt = m := by omega
        simp only [if_neg hm]
        rw [ih (attempt + 1) e (calls + 1) (by omega) (by omega)]
        congr 2
        omega

/-- C4: (i) when every attempt up to `max_retries` fails (FAILED result or
exception) the loop returns a FAILED result with `retry_count = max_retries`
whose error is the last underlying error (verbatim when the last attempt
returned a FAILED result, embedded in the `Max retries exceeded` message when
it raised); (ii) as soon as an attempt returns COMPLETED — all earlier
attempts having failed — retrying stops, and that result is returned with
`retry_count` set to the attempt index and no further `execute` calls. -/
theorem retry_terminal_behaviour (o : Nat → Attempt) (m : Nat)
    (tip : Option String) (name : String) :
    ((∀ i, i ≤ m → attemptFails (o i)) →
      (executeWithRetry o m tip name).1.status = .failed ∧
      (executeWithRetry o m tip name).1.retry_count = m ∧
      (∀ r, o m = .ok r →
        (executeWithRetry o m tip name).1.error = r.error) ∧
      (∀ e, o m = .exn e →
        (executeWithRetry o m tip name).1.error =
          some ("Max retries exceeded. Last error: " ++ e))) ∧
    (∀ k res, k ≤ m → (∀ i, i < k → attemptFails (o i)) →
      o k = .ok res → res.status = .completed →
      executeWithRetry o m tip name = ({ res with retry_count := k }, k + 1)) := by
  constructor
  · intro hfail
    exact retryGo_allFail o m tip name hfail (m + 1) 0 "None" 0 (by omega) (by omega)
  · intro k res hk hfail hok hres
    have := retryGo_completedAt o m tip name k res hk hfail hok hres (m + 1) 0 "None" 0 (by omega) (by omega)
    simp only [executeWithRetry]
    rw [this]
    congr 1
    omega

/-- Witness for C4 at concrete inputs: all four attempts raise `boom` (the
terminal result embeds it with `retry_count = 3`), and a first-attempt
failure followed by success returns the COMPLETED result with
`retry_count = 1` after exactly 2 calls. -/
theorem retry_terminal_behaviour_witness :
    (executeWithRetry exOutcomesAllRaise 3 (some "gmail_1") "gmail_agent").1.status = .failed ∧
    (executeWithRetry exOutcomesAllRaise 3 (some "gmail_1") "gmail_agent").1.retry_count = 3 ∧
    (executeWithRetry exOutcomesAllRaise 3 (some "gmail_1") "gmail_agent").1.error =
      some "Max retries exceeded. Last error: boom" ∧
    executeWithRetry exOutcomesRecover 3 none "gmail_agent" =
      ({ exCompleted "gmail_1" with retry_count := 1 }, 2) := by
  have h1 := (retry_terminal_behaviour exOutcomesAllRaise 3 (some "gmail_1") "gmail_agent").1
    (by intro i _; exact trivial)
  have h2 := (retry_terminal_behaviour exOutcomesRecover 3 none "gmail_agent").2
    1 (exCompleted "gmail_1") (by omega) (by decide) rfl rfl
  exact ⟨h1.1, h1.2.1, h1.2.2.2 "boom" rfl, h2⟩

/-! ## Parallel fan-out: claim C8 -/

/-- C8: `execute_parallel` returns exactly one result per input task, in
input order; a slot whose task returned normally keeps its result, and a slot
whose task raised gets a FAILED result for that task only (named after the
task's `task_id`, falling back to `task_{i}`).  Totality of `executeParallel`
is the embedding of "the batch call itself never raises". -/
theorem parallel_batch_shape (oracle : TaskOracle) (tasks : List TaskDict) :
    (executeParallel oracle tasks).length = tasks.length ∧
    ∀ i : Fin tasks.length,
      (∀ r, oracle (tasks.get i) = .ok r →
        (executeParallel oracle tasks).get? i.val = some r) ∧
      (∀ e, oracle (tasks.get i) = .error e →
        (executeParallel oracle tasks).get? i.val =
          some { task_id := ((tasks.get i).task_id).getD ("task_" ++ toString i.val)
                 status := .failed
                 error := some e }) := by
  constructor
  · simp [executeParallel]
  · intro i
    have hget : (tasks.map oracle).get? i.val = some (oracle (tasks.get i)) := by
      rw [List.get?_map]
      rw [List.get?_eq_get i.isLt]
      rfl
    have hbase :
        (executeParallel oracle tasks).get? i.val =
          some (processSlot tasks i.val (oracle (tasks.get i))) := by
      simp only [executeParallel]
      rw [List.get?_map, List.get?_enum, hget]
      rfl
    constructor
    · intro r hr
      rw [hbase, hr]
      rfl
    · intro e he
      rw [hbase, he]
      simp only [processSlot, Option.some.injEq]
      have : tasks.get? i.val = some (tasks.get i) := List.get?_eq_get i.isLt
      rw [this]

/-- Witness for C8: a two-task batch where the first task succeeds and the
second raises yields exactly two results, the first the COMPLETED result, the
second a synthetic FAILED result named `task_1`. -/
theorem parallel_batch_shape_witness :
    (executeParallel exOracle exBatch).length = exBatch.length ∧
    (executeParallel exOracle exBatch).get? 0 = some (exCompleted "gmail_1") ∧
    (executeParallel exOracle exBatch).get? 1 =
      some { task_id := "task_1", status := .failed,
             error := some "agent blew up" } := by
  refine ⟨(parallel_batch_shape exOracle exBatch).1, ?_, ?_⟩
  · exact ((parallel_batch_shape exOracle exBatch).2 ⟨0, by decide⟩).1
      (exCompleted "gmail_1") rfl
  · have := ((parallel_batch_shape exOracle exBatch).2 ⟨1, by decide⟩).2
      "agent blew up" rfl
    simpa using this

/-! ## Dict lemmas -/

lemma dictLookup_nil {α : Type} (k : String) :
    dictLookup ([] : List (String × α)) k = none := rfl

lemma lookup_overwrite_map {α : Type} (d : List (String × α)) (k k' : String)
    (v : α) (hne : k ≠ k') :
    dictLookup (d.map (fun p => if p.1 == k' then (k', v) else p)) k =
      dictLookup d k := by
  induction d with
  | nil => rfl
  | cons p rest ih =>
    simp only [List.map_cons, dictLookup, List.find?_cons]
    by_cases hp : p.1 == k'
    · have hp' : p.1 = k' := by simpa using hp
      have h1 : ((k', v).1 == k) = false := by
        simp [BEq.beq]
        exact fun h => hne h.symm
      have h2 : (p.1 == k) = false := by
        simp [hp']
        exact fun h => hne h.symm
      simp only [if_pos hp, h1, h2]
      simpa [dictLookup] using ih
    · simp only [if_neg hp]
      by_cases h2 : p.1 == k
      · simp [h2]
      · simp only [Bool.not_eq_true] at h2
        simp only [h2]
        simpa [dictLookup] using ih

lemma dictLookup_dictInsert_self {α : Type} (d : List (String × α))
    (k : String) (v : α) : dictLookup (dictInsert d k v) k = some v := by
  unfold dictInsert
  by_cases h : d.any (fun p => p.1 == k)
  · simp only [if_pos h]
    induction d with
    | nil => simp at h
    | cons p rest ih =>
      simp only [List.any_cons, Bool.or_eq_true] at h
      by_cases hp : p.1 == k
      · simp only [List.map_cons, if_pos hp, dictLookup, List.find?_cons]
        have hk : ((k, v).1 == k) = true := by simp
        simp only [hk]
        rfl
      · have hr : rest.any (fun p => p.1 == k) := by
          rcases h with h | h
          · exact absurd h hp
          · exact h
        simp only [List.map_cons, dictLookup, List.find?_cons, if_neg hp]
        have hpk : (p.1 == k) = false := by
          simpa using hp
        simp only [hpk]
        simpa [dictLookup] using ih hr
  · simp only [if_neg h]
    induction d with
    | nil => simp [dictLookup]
    | cons p rest ih =>
      simp only [List.any_cons, Bool.or_eq_true, not_or] at h
      have hpk : (p.1 == k) = false := by
        simpa using h.1
      simp only [List.cons_append, dictLookup, List.find?_cons, hpk]
      have := ih (by simpa using h.2)
      simpa [dictLookup] using this

lemma dictLookup_dictInsert_ne {α : Type} (d : List (String × α))
    (k k' : String) (v : α) (hne : k ≠ k') :
    dictLookup (dictInsert d k' v) k = dictLookup d k := by
  unfold dictInsert
  by_cases h : d.any (fun p => p.1 == k')
  · simp only [if_pos h]
    exact lookup_overwrite_map d k k' v hne
  · simp only [if_neg h]
    induction d with
    | nil =>
      have : ((k', v).1 == k) = false := by
        simp
        exact fun h => hne h.symm
      simp [dictLookup, this]
    | cons p rest ih =>
      simp only [List.any_cons, Bool.or_eq_true, not_or] at h
      simp only [List.cons_append, dictLookup, List.find?_cons]
      by_cases hp : p.1 == k
      · simp [hp]
      · have hpk : (p.1 == k) = false := by simpa using hp
        simp only [hpk]
        simpa [dictLookup] using ih h.2

lemma dictMem_eq_false_of_lookup_none {α : Type} (d : List (String × α))
    (k : String) (h : dictLookup d k = none) : dictMem d k = false := by
  unfold dictLookup at h
  unfold dictMem
  rw [Option.map_eq_none'] at h
  rw [List.find?_eq_none] at h
  rw [List.any_eq_false]
  intro p hp
  simpa using h p hp

/-! ## Session store: claim C5 -/

/-- C5: for a session id absent from the active-sessions map,
`update_session`, `add_execution_result` and `close_session` all return
`False` (totally — no exception) and leave the whole store untouched, while
`create_session` always succeeds: it returns the generated id and the store
afterwards maps that id to the freshly constructed session. -/
theorem session_store_unknown_id (st : SystemState) (sid : String)
    (kwargs : List FieldUpdate) (now : Nat) (taskId : String)
    (result : ExecutionResult) (nsid ui om : String) (now' : Nat) :
    (dictLookup st.active_sessions sid = none →
      updateSession st sid kwargs now = (false, st) ∧
      addExecutionResult st sid taskId result now = (false, st) ∧
      closeSession st sid = (false, st)) ∧
    ((createSession st nsid ui om now').1 = nsid ∧
      dictLookup (createSession st nsid ui om now').2.active_sessions nsid =
        some (newWorkflowState nsid ui om now')) := by
  constructor
  · intro h
    refine ⟨?_, ?_, ?_⟩
    · simp [updateSession, h]
    · simp [addExecutionResult, h]
    · simp [closeSession, dictMem_eq_false_of_lookup_none st.active_sessions sid h]
  · exact ⟨rfl, dictLookup_dictInsert_self st.active_sessions nsid _⟩

/-- Witness for C5 at a concrete store: the empty store does not know
`missing`, all three mutators reject it unchanged, and `create_session`
under a fresh uuid `sid-1` returns that id and stores the new session. -/
theorem session_store_unknown_id_witness :
    dictLookup (SystemState.mk [] [] []).active_sessions "missing" = none ∧
    updateSession ⟨[], [], []⟩ "missing" [.current_step "done"] 5 =
      (false, ⟨[], [], []⟩) ∧
    addExecutionResult ⟨[], [], []⟩ "missing" "t1" (exCompleted "t1") 5 =
      (false, ⟨[], [], []⟩) ∧
    closeSession ⟨[], [], []⟩ "missing" = (false, ⟨[], [], []⟩) ∧
    (createSession ⟨[], [], []⟩ "sid-1" "hello" "hello there" 7).1 = "sid-1" ∧
    dictLookup (createSession ⟨[], [], []⟩ "sid-1" "hello" "hello there"
      7).2.active_sessions "sid-1" =
      some (newWorkflowState "sid-1" "hello" "hello there" 7) := by
  have h := session_store_unknown_id ⟨[], [], []⟩ "missing"
    [.current_step "done"] 5 "t1" (exCompleted "t1") "sid-1" "hello"
    "hello there" 7
  have h1 := h.1 rfl
  exact ⟨rfl, h1.1, h1.2.1, h1.2.2, h.2.1, h.2.2⟩

/-! ## Parallel groups: claim C2 -/

lemma hasConflict_symm (a b : String) : hasConflict a b = hasConflict b a := by
  unfold hasConflict
  by_cases h : serviceOf a = serviceOf b
  · rw [h]
  · have h1 : (serviceOf a == serviceOf b) = false := by
      simpa using h
    have h2 : (serviceOf b == serviceOf a) = false := by
      simpa using Ne.symm h
    rw [h1, h2, Bool.and_false, Bool.and_false]

/-- The invariant maintained for the group under construction: at most three
entries, and no later entry conflicts with an earlier one (in the direction
`_create_parallel_groups` actually checks). -/
def GroupOk (grp : List GroupEntry) : Prop :=
  grp.length ≤ 3 ∧
    grp.Pairwise (fun a b => hasConflict b.task_id a.task_id = false)

lemma cpg_fold_invariant (plan : List String) :
    ∀ groups current,
      (∀ g ∈ groups, GroupOk g) → GroupOk current →
      (∀ g ∈ (plan.foldl cpgStep (groups, current)).1, GroupOk g) ∧
        GroupOk (plan.foldl cpgStep (groups, current)).2 := by
  induction plan with
  | nil => intro groups current hg hc; exact ⟨hg, hc⟩
  | cons tid rest ih =>
    intro groups current hg hc
    simp only [List.foldl_cons]
    by_cases hrun :
        (current.all (fun ex => !hasConflict tid ex.task_id) &&
          decide (current.length < 3)) = true
    · have hstep : cpgStep (groups, current) tid =
          (groups, current ++ [⟨tid, getAgentName tid⟩]) := by
        simp only [cpgStep]
        rw [if_pos hrun]
      rw [hstep]
      apply ih
      · exact hg
      · rw [Bool.and_eq_true] at hrun
        have hlen : current.length < 3 := by
          have := hrun.2
          simpa using this
        have hnoc : ∀ ex ∈ current, hasConflict tid ex.task_id = false := by
          intro ex hex
          have := List.all_eq_true.mp hrun.1 ex hex
          simpa using this
        constructor
        · simpa using Nat.succ_le_of_lt hlen
        · rw [List.pairwise_append]
          refine ⟨hc.2, List.pairwise_singleton _ _, ?_⟩
          intro a ha b hb
          simp only [List.mem_singleton] at hb
          subst hb
          exact hnoc a ha
    · have hstep : cpgStep (groups, current) tid =
          ((if current.isEmpty then groups else groups ++ [current]),
            [⟨tid, getAgentName tid⟩]) := by
        simp only [cpgStep]
        rw [if_neg hrun]
      rw [hstep]
      apply ih
      · intro g hgmem
        by_cases he : current.isEmpty
        · rw [if_pos he] at hgmem
          exact hg g hgmem
        · rw [if_neg he] at hgmem
          rcases List.mem_append.mp hgmem with h | h
          · exact hg g h
          · rw [List.mem_singleton] at h
            subst h
            exact hc
      · exact ⟨by simp, List.pairwise_singleton _ _⟩

/-- C2: every group produced by `_create_parallel_groups` holds at most 3
tasks, and no two tasks of a group conflict: in particular no two tasks of a
group share a service prefix, since an identical pair is never in the
declared safe set. -/
theorem parallel_groups_safe (plan : List String) :
    ∀ grp ∈ createParallelGroups plan,
      grp.length ≤ 3 ∧
        grp.Pairwise (fun a b => hasConflict a.task_id b.task_id = false) := by
  intro grp hgrp
  have base : ∀ g ∈ ([] : List (List GroupEntry)), GroupOk g := by
    intro g hgmem
    cases hgmem
  have hinv := cpg_fold_invariant plan [] [] base
    ⟨by simp, List.Pairwise.nil⟩
  have hok : GroupOk grp := by
    unfold createParallelGroups at hgrp
    by_cases he : (plan.foldl cpgStep ([], [])).2.isEmpty
    · rw [if_pos he] at hgrp
      exact hinv.1 grp hgrp
    · rw [if_neg he] at hgrp
      rcases List.mem_append.mp hgrp with h | h
      · exact hinv.1 grp h
      · rw [List.mem_singleton] at h
        subst h
        exact hinv.2
  refine ⟨hok.1, ?_⟩
  refine hok.2.imp ?_
  intro a b hab
  rw [hasConflict_symm]
  exact hab

/-- Witness for C2: the plan `gmail_1, notion_2, gmail_3` yields the group
`[gmail_1, notion_2]` (the second gmail task is pushed into a new group), and
that group is within bounds and conflict-free. -/
theorem parallel_groups_safe_witness :
    [GroupEntry.mk "gmail_1" "gmail_agent",
      GroupEntry.mk "notion_2" "notion_agent"] ∈
        createParallelGroups ["gmail_1", "notion_2", "gmail_3"] ∧
    ([GroupEntry.mk "gmail_1" "gmail_agent",
      GroupEntry.mk "notion_2" "notion_agent"] : List GroupEntry).length ≤ 3 ∧
    ([GroupEntry.mk "gmail_1" "gmail_agent",
      GroupEntry.mk "notion_2" "notion_agent"] : List GroupEntry).Pairwise
        (fun a b => hasConflict a.task_id b.task_id = false) := by
  have hm :
      [GroupEntry.mk "gmail_1" "gmail_agent",
        GroupEntry.mk "notion_2" "notion_agent"] ∈
          createParallelGroups ["gmail_1", "notion_2", "gmail_3"] := by
    decide
  have := parallel_groups_safe ["gmail_1", "notion_2", "gmail_3"] _ hm
  exact ⟨hm, this.1, this.2⟩

/-! ## Error-handling routing: claims C6 and C7 -/

lemma failedTasksOf_length (s : WorkflowState) :
    (failedTasksOf s).length =
      s.task_results.countP (fun p => decide (p.2.status = .failed)) := by
  unfold failedTasksOf
  induction s.task_results with
  | nil => rfl
  | cons p rest ih =>
    by_cases h : p.2.status = .failed
    · simp [List.filterMap_cons, h, List.countP_cons, ih]
    · simp [List.filterMap_cons, h, List.countP_cons, ih]

lemma errorHandlingNode_task_results (s : WorkflowState) :
    (errorHandlingNode s).task_results = s.task_results := rfl

lemma errorHandlingNode_retry_count (s : WorkflowState) :
    ctxGetInt (errorHandlingNode s).context "retry_count" 0 =
      ctxGetInt s.context "retry_count" 0 + 1 := by
  unfold errorHandlingNode ctxGetInt
  rw [dictLookup_dictInsert_ne _ _ _ _ (by decide)]
  rw [dictLookup_dictInsert_self]
  rw [dictLookup_dictInsert_ne _ _ _ _ (by decide)]

lemma errorHandlingNode_failed_tasks (s : WorkflowState) :
    ctxGetStrList (errorHandlingNode s).context "failed_tasks" =
      failedTasksOf s := by
  unfold errorHandlingNode ctxGetStrList
  rw [dictLookup_dictInsert_ne _ _ _ _ (by decide)]
  rw [dictLookup_dictInsert_ne _ _ _ _ (by decide)]
  rw [dictLookup_dictInsert_self]

lemma errorHandlingNode_recovery (s : WorkflowState) :
    dictLookup (errorHandlingNode s).context "recovery_strategy" =
      some (.precov (analyzeFailures s (failedTasksOf s))) := by
  unfold errorHandlingNode
  rw [dictLookup_dictInsert_self]

/-- C6 (amended): after the error-handling node, a retry counter below 2
routes to `parallel_execution` — unconditionally, even for a session that was
on the sequential path; with the counter at 2 or above the session goes to
`result_aggregation` when some recorded task is not FAILED and to
`notification` when every recorded task is FAILED. -/
theorem route_after_error_handling_amended (s : WorkflowState) :
    (ctxGetInt (errorHandlingNode s).context "retry_count" 0 < 2 →
      dictLookup errorHandlingEdges
          (routeAfterErrorHandling (errorHandlingNode s)) =
        some "parallel_execution") ∧
    (2 ≤ ctxGetInt (errorHandlingNode s).context "retry_count" 0 →
      ((∃ p ∈ s.task_results, ¬ p.2.status = .failed) →
        dictLookup errorHandlingEdges
            (routeAfterErrorHandling (errorHandlingNode s)) =
          some "result_aggregation") ∧
      ((∀ p ∈ s.task_results, p.2.status = .failed) →
        dictLookup errorHandlingEdges
            (routeAfterErrorHandling (errorHandlingNode s)) =
          some "notification")) := by
  constructor
  · intro h
    unfold routeAfterErrorHandling
    rw [if_pos h]
    rfl
  · intro h
    have hn : ¬ ctxGetInt (errorHandlingNode s).context "retry_count" 0 < 2 :=
      by omega
    constructor
    · intro hex
      unfold routeAfterErrorHandling
      rw [if_neg hn]
      have hlt : (ctxGetStrList (errorHandlingNode s).context
          "failed_tasks").length < (errorHandlingNode s).task_results.length := by
        rw [errorHandlingNode_failed_tasks, errorHandlingNode_task_results,
          failedTasksOf_length]
        have hle := List.countP_le_length
          (fun p : String × ExecutionResult => decide (p.2.status = .failed))
          (l := s.task_results)
        have hne : s.task_results.countP
            (fun p => decide (p.2.status = .failed)) ≠
            s.task_results.length := by
          intro heq
          have hall := (List.countP_eq_length).mp heq
          rcases hex with ⟨p, hp, hnp⟩
          have := hall p hp
          simp at this
          exact hnp this
        omega
      rw [if_pos hlt]
      rfl
    · intro hall
      unfold routeAfterErrorHandling
      rw [if_neg hn]
      have hnl : ¬ (ctxGetStrList (errorHandlingNode s).context
          "failed_tasks").length < (errorHandlingNode s).task_results.length := by
        rw [errorHandlingNode_failed_tasks, errorHandlingNode_task_results,
          failedTasksOf_length]
        have heq : s.task_results.countP
            (fun p => decide (p.2.status = .failed)) =
            s.task_results.length := by
          apply (List.countP_eq_length).mpr
          intro p hp
          simpa using hall p hp
        omega
      rw [if_neg hnl]
      rfl

/-- Counterexample to C6 as stated: a session classified onto the sequential
(simple) path — a single dependency-free intent — whose first error-handling
pass leaves the retry counter at 1; the routing function answers `retry`, and
the graph's edge map sends `retry` to `parallel_execution`, not back to
`sequential_execution` (no edge of the error-handling node targets
`sequential_execution` at all). -/
theorem route_after_error_handling_counterexample :
    routeAfterIntentAnalysis exSeqBase = "simple" ∧
    routeAfterErrorHandling exSeqState = "retry" ∧
    dictLookup errorHandlingEdges "retry" = some "parallel_execution" ∧
    dictLookup errorHandlingEdges "notify" = some "notification" ∧
    dictLookup errorHandlingEdges "complete" = some "result_aggregation" := by
  refine ⟨rfl, ?_, rfl, rfl, rfl⟩
  decide

/-- Witness for C6 (amended) at concrete inputs: on the sequential-path
session the first pass has the counter at 1 and routes to
`parallel_execution`; on the exhausted, fully failed session the route is
`notification`. -/
theorem route_after_error_handling_amended_witness :
    dictLookup errorHandlingEdges
        (routeAfterErrorHandling (errorHandlingNode exSeqBase)) =
      some "parallel_execution" ∧
    dictLookup errorHandlingEdges
        (routeAfterErrorHandling (errorHandlingNode exAllFailedBase)) =
      some "notification" := by
  constructor
  · exact (route_after_error_handling_amended exSeqBase).1 (by decide)
  · exact ((route_after_error_handling_amended exAllFailedBase).2
      (by decide)).2 (by decide)

/-- C7 (amended): the `recoverable` flag stored by failure analysis is set
iff the failed count is below the *floor* of half the number of recorded task
results (Python `len(task_results) // 2`). -/
theorem recoverable_iff_below_floor_half (s : WorkflowState) :
    dictLookup (errorHandlingNode s).context "recovery_strategy" =
      some (.precov (analyzeFailures s (failedTasksOf s))) ∧
    ((analyzeFailures s (failedTasksOf s)).recoverable = true ↔
      (failedTasksOf s).length < s.task_results.length / 2) := by
  refine ⟨errorHandlingNode_recovery s, ?_⟩
  unfold analyzeFailures
  simp

/-- Counterexample to C7 as stated: with 3 recorded results of which exactly
1 failed, the failed count is strictly below half the total
(`2 * 1 < 3`), yet the computed flag is `false` (the code compares against
`3 // 2 = 1`). -/
theorem recoverable_counterexample :
    (analyzeFailures exThirdFailedState
      (failedTasksOf exThirdFailedState)).recoverable = false ∧
    2 * (failedTasksOf exThirdFailedState).length <
      exThirdFailedState.task_results.length := by
  constructor
  · decide
  · decide

/-! ## Kahn-loop lemmas for claim C1 -/

lemma insertPair_perm (x : Nat × String) :
    ∀ l : List (Nat × String), (insertPair x l).Perm (x :: l) := by
  intro l
  induction l with
  | nil => exact List.Perm.refl _
  | cons y ys ih =>
    unfold insertPair
    by_cases h : pairLe x y
    · rw [if_pos h]
    · rw [if_neg h]
      exact (ih.cons y).trans (List.Perm.swap x y ys)

lemma sortPairs_perm (l : List (Nat × String)) : (sortPairs l).Perm l := by
  induction l with
  | nil => exact List.Perm.refl _
  | cons y ys ih =>
    unfold sortPairs
    simp only [List.foldr_cons]
    exact (insertPair_perm y _).trans (ih.cons y)

lemma dictKeys_append {α : Type} (d e : List (String × α)) :
    dictKeys (d ++ e) = dictKeys d ++ dictKeys e := by
  simp [dictKeys]

lemma dictLookup_of_mem_of_nodup {α : Type} :
    ∀ (g : List (String × α)) (k : String) (v : α), (dictKeys g).Nodup →
      (k, v) ∈ g → dictLookup g k = some v := by
  intro g
  induction g with
  | nil => intro k v _ hm; cases hm
  | cons p rest ih =>
    intro k v hnd hm
    have hnd' : (dictKeys rest).Nodup := (List.nodup_cons.mp hnd).2
    rcases List.mem_cons.mp hm with h | h
    · subst h
      simp [dictLookup]
    · have hk : k ∈ dictKeys rest := by
        exact List.mem_map.mpr ⟨(k, v), h, rfl⟩
      have hp : p.1 ≠ k := by
        intro he
        have hhead := (List.nodup_cons.mp hnd).1
        simp only at hhead
        rw [he] at hhead
        exact hhead hk
      have hpk : (p.1 == k) = false := by simpa using hp
      simp only [dictLookup, List.find?_cons, hpk]
      exact ih k v hnd' h

lemma initCount_eq_zero_inGraphDeps (g : Graph) (t : String)
    (h : initCount g t = 0) : inGraphDeps g t = [] := by
  unfold initCount at h
  unfold inGraphDeps
  rw [List.filter_eq_nil]
  intro d hd
  have := List.countP_eq_zero.mp h d hd
  simpa using this

lemma count_ge_of_two_missing (D K L : List String) (hnd : L.Nodup)
    (hsub : ∀ x ∈ L, x ∈ D ∧ x ∈ K) (c d : String)
    (hcD : c ∈ D) (hcK : c ∈ K) (hcL : c ∉ L)
    (hdD : d ∈ D) (hdK : d ∈ K) (hdL : d ∉ L) (hcd : c ≠ d) :
    L.length + 2 ≤ D.countP (fun x => decide (x ∈ K)) := by
  rw [List.countP_eq_length_filter]
  have hnodup : (L ++ [c, d]).Nodup := by
    rw [List.nodup_append]
    refine ⟨hnd, ?_, ?_⟩
    · simp [hcd]
    · intro x hx hmem
      simp only [List.mem_cons, List.not_mem_nil, or_false] at hmem
      rcases hmem with h | h
      · subst h; exact hcL hx
      · subst h; exact hdL hx
  have hsubset : (L ++ [c, d]) ⊆ D.filter (fun x => decide (x ∈ K)) := by
    intro x hx
    rw [List.mem_filter]
    rcases List.mem_append.mp hx with h | h
    · have := hsub x h
      exact ⟨this.1, by simpa using this.2⟩
    · simp only [List.mem_cons, List.not_mem_nil, or_false,
        List.mem_singleton] at h
      rcases h with h | h
      · subst h; exact ⟨hcD, by simpa using hcK⟩
      · subst h; exact ⟨hdD, by simpa using hdK⟩
  have := (List.Nodup.subperm hnodup hsubset).length_le
  simpa using this

/-- Preservation of the Kahn invariant through the dependent-decrement fold:
processing the graph items in `gRest` (the items in `gDone` being already
processed) after popping `cur` keeps the degree accounting and the queue
properties, now with respect to `order ++ [cur]`. -/
lemma stepFold_preserves (g : Graph) (prio : String → Nat) (cur : String)
    (order : List String) (hknd : (dictKeys g).Nodup)
    (hcur_keys : cur ∈ dictKeys g) (hcur_not_order : cur ∉ order)
    (horder_nodup : order.Nodup)
    (horder_keys : ∀ t ∈ order, t ∈ dictKeys g) :
    ∀ (gRest gDone : Graph) (deg : String → Int) (q : List (Nat × String)),
      g = gDone ++ gRest →
      (∀ t ∈ dictKeys gDone,
        deg t = (initCount g t : Int) -
          (((order ++ [cur]).filter
            (fun u => decide (u ∈ depsOf g t))).length : Int)) →
      (∀ t ∈ dictKeys gRest,
        deg t = (initCount g t : Int) -
          ((order.filter (fun u => decide (u ∈ depsOf g t))).length : Int)) →
      (∀ p ∈ q, p.2 ∈ dictKeys g) →
      (∀ p ∈ q, ∀ d ∈ inGraphDeps g p.2, d ∈ order ++ [cur]) →
      (∀ p ∈ q, p.2 ∉ order ++ [cur]) →
      ((q.map (fun p => p.2)).Nodup) →
      (∀ t, t ∈ dictKeys g →
        (t ∈ order ++ [cur] ∨ t ∈ q.map (fun p => p.2)) → deg t ≤ 0) →
      (∀ t ∈ dictKeys g,
        (stepFold cur prio gRest deg q).1 t = (initCount g t : Int) -
          (((order ++ [cur]).filter
            (fun u => decide (u ∈ depsOf g t))).length : Int)) ∧
      (∀ p ∈ (stepFold cur prio gRest deg q).2, p.2 ∈ dictKeys g) ∧
      (∀ p ∈ (stepFold cur prio gRest deg q).2,
        ∀ d ∈ inGraphDeps g p.2, d ∈ order ++ [cur]) ∧
      (∀ p ∈ (stepFold cur prio gRest deg q).2, p.2 ∉ order ++ [cur]) ∧
      (((stepFold cur prio gRest deg q).2.map (fun p => p.2)).Nodup) ∧
      (∀ t, t ∈ dictKeys g →
        (t ∈ order ++ [cur] ∨
          t ∈ (stepFold cur prio gRest deg q).2.map (fun p => p.2)) →
        (stepFold cur prio gRest deg q).1 t ≤ 0) := by
  intro gRest
  induction gRest with
  | nil =>
    intro gDone deg q hsplit hdone _ hqk hqd hqf hqn hnp
    rw [List.append_nil] at hsplit
    subst hsplit
    exact ⟨hdone, hqk, hqd, hqf, hqn, hnp⟩
  | cons hd rest' ih =>
    obtain ⟨t₀, deps₀⟩ := hd
    intro gDone deg q hsplit hdone hrest hqk hqd hqf hqn hnp
    have ht₀g : (t₀, deps₀) ∈ g := by
      rw [hsplit]
      exact List.mem_append.mpr (Or.inr (List.mem_cons_self _ _))
    have ht₀keys : t₀ ∈ dictKeys g := List.mem_map.mpr ⟨(t₀, deps₀), ht₀g, rfl⟩
    have hlookup : dictLookup g t₀ = some deps₀ :=
      dictLookup_of_mem_of_nodup g t₀ deps₀ hknd ht₀g
    have hdeps : depsOf g t₀ = deps₀ := by
      unfold depsOf
      rw [hlookup]
      rfl
    have hkeq : dictKeys g = dictKeys gDone ++ t₀ :: dictKeys rest' := by
      rw [hsplit, dictKeys_append]
      rfl
    have hksplit : (dictKeys gDone ++ t₀ :: dictKeys rest').Nodup := by
      rw [← hkeq]
      exact hknd
    have ht₀notDone : t₀ ∉ dictKeys gDone := by
      intro hmem
      have hdisj := (List.nodup_append.mp hksplit).2.2
      exact hdisj hmem (List.mem_cons_self _ _)
    have ht₀notRest : t₀ ∉ dictKeys rest' := by
      have := (List.nodup_append.mp hksplit).2.1
      exact (List.nodup_cons.mp this).1
    have hsplit' : g = (gDone ++ [(t₀, deps₀)]) ++ rest' := by
      rw [hsplit, List.append_assoc]
      rfl
    have hdegt₀ : deg t₀ = (initCount g t₀ : Int) -
        ((order.filter (fun u => decide (u ∈ depsOf g t₀))).length : Int) :=
      hrest t₀ (List.mem_cons_self _ _)
    by_cases hmem : cur ∈ deps₀
    · -- `cur` is a dependency of `t₀`: its in-degree is decremented.
      have hfcur : ((order ++ [cur]).filter
          (fun u => decide (u ∈ depsOf g t₀))).length =
          (order.filter (fun u => decide (u ∈ depsOf g t₀))).length + 1 := by
        rw [List.filter_append]
        have : decide (cur ∈ depsOf g t₀) = true := by
          rw [hdeps]
          exact decide_eq_true hmem
        simp [this]
      have hdone' : ∀ t ∈ dictKeys (gDone ++ [(t₀, deps₀)]),
          (fun x => if x = t₀ then deg t₀ - 1 else deg x) t =
            (initCount g t : Int) -
            (((order ++ [cur]).filter
              (fun u => decide (u ∈ depsOf g t))).length : Int) := by
        intro t ht
        rw [dictKeys_append] at ht
        rcases List.mem_append.mp ht with ht | ht
        · have hne : t ≠ t₀ := by
            intro he
            rw [he] at ht
            exact ht₀notDone ht
          simp only [if_neg hne]
          exact hdone t ht
        · have hte : t = t₀ := by
            simpa [dictKeys] using ht
          subst hte
          simp only [if_pos rfl]
          rw [hdegt₀, hfcur]
          push_cast
          ring
      have hrest' : ∀ t ∈ dictKeys rest',
          (fun x => if x = t₀ then deg t₀ - 1 else deg x) t =
            (initCount g t : Int) -
            ((order.filter (fun u => decide (u ∈ depsOf g t))).length : Int) := by
        intro t ht
        have hne : t ≠ t₀ := by
          intro he
          rw [he] at ht
          exact ht₀notRest ht
        simp only [if_neg hne]
        exact hrest t (List.mem_cons_of_mem _ ht)
      simp only [stepFold, if_pos hmem]
      by_cases hzero : deg t₀ - 1 = 0
      · rw [if_pos hzero]
        have hdeg1 : deg t₀ = 1 := by omega
        -- `t₀` is not yet emitted or queued, because its degree is positive.
        have ht₀fresh : t₀ ∉ order ++ [cur] ∧ t₀ ∉ q.map (fun p => p.2) := by
          by_contra hcon
          rw [not_and_or, not_not, not_not] at hcon
          have : deg t₀ ≤ 0 := by
            apply hnp t₀ ht₀keys
            rcases hcon with h | h
            · exact Or.inl h
            · exact Or.inr h
          omega
        -- every in-graph dependency of `t₀` has already been emitted.
        have ht₀done : ∀ d ∈ inGraphDeps g t₀, d ∈ order ++ [cur] := by
          intro d hd
          by_contra hdn
          have hdD : d ∈ depsOf g t₀ := (List.mem_filter.mp hd).1
          have hdK : d ∈ dictKeys g := by
            have := (List.mem_filter.mp hd).2
            simpa using this
          have hdno : d ∉ order := fun hmem' =>
            hdn (List.mem_append.mpr (Or.inl hmem'))
          have hdnc : cur ≠ d := by
            intro he
            exact hdn (List.mem_append.mpr (Or.inr (by rw [← he]; exact List.mem_singleton.mpr rfl)))
          have hsub : ∀ x ∈ order.filter
              (fun u => decide (u ∈ depsOf g t₀)),
              x ∈ depsOf g t₀ ∧ x ∈ dictKeys g := by
            intro x hx
            have hx1 := (List.mem_filter.mp hx).1
            have hx2 := (List.mem_filter.mp hx).2
            exact ⟨by simpa using hx2, horder_keys x hx1⟩
          have hcurL : cur ∉ order.filter
              (fun u => decide (u ∈ depsOf g t₀)) := by
            intro hx
            exact hcur_not_order (List.mem_filter.mp hx).1
          have hdL : d ∉ order.filter
              (fun u => decide (u ∈ depsOf g t₀)) := by
            intro hx
            exact hdno (List.mem_filter.mp hx).1
          have hcount := count_ge_of_two_missing (depsOf g t₀) (dictKeys g)
            (order.filter (fun u => decide (u ∈ depsOf g t₀)))
            (List.Nodup.filter _ horder_nodup) hsub cur d
            (by rw [hdeps]; exact hmem) hcur_keys hcurL hdD hdK hdL hdnc
          have hinit : initCount g t₀ =
              (order.filter (fun u => decide (u ∈ depsOf g t₀))).length + 1 := by
            omega
          unfold initCount at hcount hinit
          omega
        apply ih (gDone ++ [(t₀, deps₀)])
          (fun x => if x = t₀ then deg t₀ - 1 else deg x)
          (sortPairs (q ++ [(prio t₀, t₀)])) hsplit' hdone' hrest'
        · intro p hp
          have hp' := (sortPairs_perm _).mem_iff.mp hp
          rcases List.mem_append.mp hp' with h | h
          · exact hqk p h
          · rw [List.mem_singleton] at h
            subst h
            exact ht₀keys
        · intro p hp
          have hp' := (sortPairs_perm _).mem_iff.mp hp
          rcases List.mem_append.mp hp' with h | h
          · exact hqd p h
          · rw [List.mem_singleton] at h
            subst h
            exact ht₀done
        · intro p hp
          have hp' := (sortPairs_perm _).mem_iff.mp hp
          rcases List.mem_append.mp hp' with h | h
          · exact hqf p h
          · rw [List.mem_singleton] at h
            subst h
            exact ht₀fresh.1
        · have hperm : ((sortPairs (q ++ [(prio t₀, t₀)])).map
              (fun p => p.2)).Perm ((q ++ [(prio t₀, t₀)]).map (fun p => p.2)) :=
            (sortPairs_perm _).map _
          rw [hperm.nodup_iff]
          rw [List.map_append]
          rw [List.nodup_append]
          refine ⟨hqn, by simp, ?_⟩
          intro x hx hmem'
          simp only [List.map_cons, List.map_nil, List.mem_singleton] at hmem'
          subst hmem'
          exact ht₀fresh.2 hx
        · intro t htk htmem
          by_cases hte : t = t₀
          · show (if t = t₀ then deg t₀ - 1 else deg t) ≤ 0
            rw [if_pos hte]
            omega
          · show (if t = t₀ then deg t₀ - 1 else deg t) ≤ 0
            rw [if_neg hte]
            apply hnp t htk
            rcases htmem with h | h
            · exact Or.inl h
            · have hperm : ((sortPairs (q ++ [(prio t₀, t₀)])).map
                  (fun p => p.2)).Perm
                  ((q ++ [(prio t₀, t₀)]).map (fun p => p.2)) :=
                (sortPairs_perm _).map _
              have := hperm.mem_iff.mp h
              rw [List.map_append] at this
              rcases List.mem_append.mp this with h' | h'
              · exact Or.inr h'
              · simp only [List.map_cons, List.map_nil,
                  List.mem_singleton] at h'
                exact absurd h' hte
      · rw [if_neg hzero]
        apply ih (gDone ++ [(t₀, deps₀)])
          (fun x => if x = t₀ then deg t₀ - 1 else deg x) q hsplit'
          hdone' hrest' hqk hqd hqf hqn
        intro t htk htmem
        by_cases hte : t = t₀
        · subst hte
          simp only [if_pos rfl]
          have := hnp t htk htmem
          omega
        · simp only [if_neg hte]
          exact hnp t htk htmem
    · -- `cur` is not a dependency of `t₀`: nothing changes for `t₀`.
      have hdone' : ∀ t ∈ dictKeys (gDone ++ [(t₀, deps₀)]),
          deg t = (initCount g t : Int) -
            (((order ++ [cur]).filter
              (fun u => decide (u ∈ depsOf g t))).length : Int) := by
        intro t ht
        rw [dictKeys_append] at ht
        rcases List.mem_append.mp ht with ht | ht
        · exact hdone t ht
        · have hte : t = t₀ := by
            simpa [dictKeys] using ht
          subst hte
          have hf : ((order ++ [cur]).filter
              (fun u => decide (u ∈ depsOf g t))).length =
              (order.filter (fun u => decide (u ∈ depsOf g t))).length := by
            rw [List.filter_append]
            have : decide (cur ∈ depsOf g t) = false := by
              rw [hdeps]
              simpa using hmem
            simp [this]
          rw [hf]
          exact hdegt₀
      have hrest' : ∀ t ∈ dictKeys rest',
          deg t = (initCount g t : Int) -
            ((order.filter (fun u => decide (u ∈ depsOf g t))).length : Int) :=
        fun t ht => hrest t (List.mem_cons_of_mem _ ht)
      simp only [stepFold, if_neg hmem]
      exact ih (gDone ++ [(t₀, deps₀)]) deg q hsplit' hdone' hrest'
        hqk hqd hqf hqn hnp

lemma mem_filterMap_snd (f : String → Option (Nat × String))
    (hf : ∀ t p, f t = some p → p.2 = t) (K : List String) (x : String)
    (hx : x ∈ (K.filterMap f).map (fun p => p.2)) : x ∈ K := by
  rcases List.mem_map.mp hx with ⟨p, hp, hpx⟩
  rcases List.mem_filterMap.mp hp with ⟨t, ht, hft⟩
  have := hf t p hft
  rw [← hpx, this]
  exact ht

lemma filterMap_snd_nodup (f : String → Option (Nat × String))
    (hf : ∀ t p, f t = some p → p.2 = t) :
    ∀ K : List String, K.Nodup →
      ((K.filterMap f).map (fun p => p.2)).Nodup := by
  intro K
  induction K with
  | nil => intro _; simp
  | cons k rest ih =>
    intro hnd
    rw [List.filterMap_cons]
    cases hfk : f k with
    | none => exact ih (List.nodup_cons.mp hnd).2
    | some p =>
      rw [List.map_cons, List.nodup_cons]
      constructor
      · intro hmem
        have hx : p.2 ∈ rest := mem_filterMap_snd f hf rest p.2 hmem
        have := hf k p hfk
        rw [this] at hx
        exact (List.nodup_cons.mp hnd).1 hx
      · exact ih (List.nodup_cons.mp hnd).2

/-- The Kahn invariant holds of the initial in-degree table, seeded queue and
empty order. -/
lemma kahnInv_init (g : Graph) (prio : String → Nat)
    (hknd : (dictKeys g).Nodup) :
    KahnInv g (fun t => (initCount g t : Int)) (seedQueue g prio) [] := by
  have hseed : ∀ p ∈ seedQueue g prio,
      p.2 ∈ dictKeys g ∧ initCount g p.2 = 0 := by
    intro p hp
    have hp' := (sortPairs_perm _).mem_iff.mp hp
    rcases List.mem_filterMap.mp hp' with ⟨t, ht, hft⟩
    by_cases hz : initCount g t = 0
    · rw [if_pos hz] at hft
      cases hft
      exact ⟨ht, hz⟩
    · rw [if_neg hz] at hft
      cases hft
  refine ⟨List.nodup_nil, ?_, ?_, ?_, ?_, ?_, ?_, ?_, ?_⟩
  · intro t ht; cases ht
  · intro i h; cases h
  · exact fun p hp => (hseed p hp).1
  · intro p hp d hd
    rw [initCount_eq_zero_inGraphDeps g p.2 (hseed p hp).2] at hd
    cases hd
  · intro p _ hmem; cases hmem
  · have hperm : ((seedQueue g prio).map (fun p => p.2)).Perm
        (((dictKeys g).filterMap (fun t =>
          if initCount g t = 0 then some (prio t, t) else none)).map
          (fun p => p.2)) := (sortPairs_perm _).map _
    rw [hperm.nodup_iff]
    apply filterMap_snd_nodup
    · intro t p hft
      by_cases hz : initCount g t = 0
      · rw [if_pos hz] at hft; cases hft; rfl
      · rw [if_neg hz] at hft; cases hft
    · exact hknd
  · intro t _
    simp
  · intro t htk hmem
    rcases hmem with h | h
    · cases h
    · have hx : t ∈ ((seedQueue g prio).map (fun p => p.2)) := h
      rcases List.mem_map.mp hx with ⟨p, hp, hpx⟩
      have := (hseed p hp).2
      rw [hpx] at this
      simp [this]

/-- Every run of the Kahn loop started in an invariant state emits a valid
topological order, whatever the fuel. -/
lemma kahnLoop_topo (g : Graph) (prio : String → Nat)
    (hknd : (dictKeys g).Nodup) :
    ∀ (fuel : Nat) (deg : String → Int) (queue : List (Nat × String))
      (order : List String), KahnInv g deg queue order →
      isValidTopo g (kahnLoop g prio fuel deg queue order) := by
  intro fuel
  induction fuel with
  | zero => intro deg queue order inv; exact inv.order_topo
  | succ n ih =>
    intro deg queue order inv
    match hq : queue with
    | [] => exact inv.order_topo
    | (pr, cur) :: rest =>
      have hcur_keys : cur ∈ dictKeys g :=
        inv.queue_keys (pr, cur) (List.mem_cons_self _ _)
      have hcur_fresh : cur ∉ order :=
        inv.queue_fresh (pr, cur) (List.mem_cons_self _ _)
      have hcur_done : ∀ d ∈ inGraphDeps g cur, d ∈ order :=
        inv.queue_done (pr, cur) (List.mem_cons_self _ _)
      have hrest_nodup : (rest.map (fun p => p.2)).Nodup := by
        have := inv.queue_nodup
        rw [List.map_cons, List.nodup_cons] at this
        exact this.2
      have hcur_notin_rest : cur ∉ rest.map (fun p => p.2) := by
        have := inv.queue_nodup
        rw [List.map_cons, List.nodup_cons] at this
        exact this.1
      have hstep := stepFold_preserves g prio cur order hknd hcur_keys
        hcur_fresh inv.order_nodup inv.order_keys g [] deg rest
        (List.nil_append g).symm
        (by intro t ht; cases ht)
        inv.deg_acc
        (fun p hp => inv.queue_keys p (List.mem_cons_of_mem _ hp))
        (fun p hp d hd => List.mem_append.mpr
          (Or.inl (inv.queue_done p (List.mem_cons_of_mem _ hp) d hd)))
        (by
          intro p hp hmem
          rcases List.mem_append.mp hmem with h | h
          · exact inv.queue_fresh p (List.mem_cons_of_mem _ hp) h
          · rw [List.mem_singleton] at h
            apply hcur_notin_rest
            rw [← h]
            exact List.mem_map.mpr ⟨p, hp, rfl⟩)
        hrest_nodup
        (by
          intro t htk htmem
          apply inv.deg_nonpos t htk
          rcases htmem with h | h
          · rcases List.mem_append.mp h with h' | h'
            · exact Or.inl h'
            · rw [List.mem_singleton] at h'
              subst h'
              exact Or.inr (by
                rw [List.map_cons]
                exact List.mem_cons_self _ _)
          · exact Or.inr (by
              rw [List.map_cons]
              exact List.mem_cons_of_mem _ h))
      obtain ⟨hacc', hqk', hqd', hqf', hqn', hnp'⟩ := hstep
      have horder'_nodup : (order ++ [cur]).Nodup := by
        rw [List.nodup_append]
        refine ⟨inv.order_nodup, by simp, ?_⟩
        intro x hx hmem
        rw [List.mem_singleton] at hmem
        subst hmem
        exact hcur_fresh hx
      have horder'_topo : ∀ i (h : i < (order ++ [cur]).length),
          ∀ d ∈ inGraphDeps g ((order ++ [cur]).get ⟨i, h⟩),
            d ∈ (order ++ [cur]).take i := by
        intro i h d hd
        have hlen : i ≤ order.length := by
          simp only [List.length_append, List.length_singleton] at h
          omega
        rcases Nat.lt_or_ge i order.length with hi | hi
        · have hget : (order ++ [cur]).get ⟨i, h⟩ = order.get ⟨i, hi⟩ := by
            rw [List.get_append i hi]
          rw [hget] at hd
          have := inv.order_topo i hi d hd
          rw [List.take_append_of_le_length (Nat.le_of_lt hi)]
          exact this
        · have hieq : i = order.length := by omega
          subst hieq
          have hget : (order ++ [cur]).get ⟨order.length, h⟩ = cur := by
            simp
          rw [hget] at hd
          rw [List.take_left]
          exact hcur_done d hd
      have inv' : KahnInv g (stepFold cur prio g deg rest).1
          (stepFold cur prio g deg rest).2 (order ++ [cur]) :=
        { order_nodup := horder'_nodup
          order_keys := by
            intro t ht
            rcases List.mem_append.mp ht with h | h
            · exact inv.order_keys t h
            · rw [List.mem_singleton] at h
              subst h
              exact hcur_keys
          order_topo := horder'_topo
          queue_keys := hqk'
          queue_done := hqd'
          queue_fresh := hqf'
          queue_nodup := hqn'
          deg_acc := hacc'
          deg_nonpos := hnp' }
      have := ih (stepFold cur prio g deg rest).1
        (stepFold cur prio g deg rest).2 (order ++ [cur]) inv'
      simpa [kahnLoop] using this

lemma dictKeys_map_overwrite {α : Type} (d : List (String × α)) (k : String)
    (v : α) :
    dictKeys (d.map (fun p => if p.1 == k then (k, v) else p)) = dictKeys d := by
  induction d with
  | nil => rfl
  | cons p rest ih =>
    simp only [List.map_cons, dictKeys, List.map_cons] at *
    by_cases hp : p.1 == k
    · have hp' : p.1 = k := by simpa using hp
      rw [if_pos hp, ih]
      simp [hp']
    · rw [if_neg hp, ih]

lemma dictKeys_dictInsert_nodup {α : Type} (d : List (String × α))
    (k : String) (v : α) (h : (dictKeys d).Nodup) :
    (dictKeys (dictInsert d k v)).Nodup := by
  unfold dictInsert
  by_cases hc : d.any (fun p => p.1 == k)
  · rw [if_pos hc, dictKeys_map_overwrite]
    exact h
  · rw [if_neg hc, dictKeys_append]
    rw [List.nodup_append]
    refine ⟨h, by simp [dictKeys], ?_⟩
    intro x hx hmem
    simp only [dictKeys, List.map_cons, List.map_nil,
      List.mem_singleton] at hmem
    subst hmem
    rw [Bool.not_eq_true, List.any_eq_false] at hc
    rcases List.mem_map.mp hx with ⟨p, hp, hpx⟩
    have := hc p hp
    simp only [hpx] at this
    simp at this

lemma graphStep_keys_nodup (acc : Graph) (i : TaskIntent)
    (hacc : (dictKeys acc).Nodup) : (dictKeys (graphStep acc i)).Nodup := by
  unfold graphStep
  cases hti : i.taskId with
  | none => exact hacc
  | some tid =>
    by_cases hne : tid ≠ ""
    · simp only [if_pos hne]
      exact dictKeys_dictInsert_nodup acc tid i.dependencies hacc
    · simp only [if_neg hne]
      exact hacc

lemma buildGraphRaw_keys_nodup (intents : List TaskIntent) :
    (dictKeys (buildGraphRaw intents)).Nodup := by
  unfold buildGraphRaw
  suffices h : ∀ acc : Graph, (dictKeys acc).Nodup →
      (dictKeys (intents.foldl graphStep acc)).Nodup by
    exact h [] (by simp [dictKeys])
  induction intents with
  | nil => intro acc hacc; exact hacc
  | cons i rest ih =>
    intro acc hacc
    rw [List.foldl_cons]
    exact ih _ (graphStep_keys_nodup acc i hacc)

lemma dictKeys_resolve (g : Graph) :
    dictKeys (resolveCircularDependency g) = dictKeys g := by
  unfold resolveCircularDependency dictKeys
  rw [List.map_map]
  rfl

lemma buildDependencyGraph_keys_nodup (intents : List TaskIntent) :
    (dictKeys (buildDependencyGraph intents)).Nodup := by
  unfold buildDependencyGraph
  by_cases h : hasCircularDependency (buildGraphRaw intents)
  · rw [if_pos h, dictKeys_resolve]
    exact buildGraphRaw_keys_nodup intents
  · rw [if_neg h]
    exact buildGraphRaw_keys_nodup intents

/-- The execution plan is a valid topological order for any graph whose key
list is duplicate-free (dicts always are). -/
lemma createExecutionPlan_topo (g : Graph) (intents : List TaskIntent)
    (hknd : (dictKeys g).Nodup) :
    isValidTopo g (createExecutionPlan g intents) := by
  unfold createExecutionPlan
  exact kahnLoop_topo g _ hknd _ _ _ _ (kahnInv_init g _ hknd)

/-- C1: for a session whose dependency graph — as built and pruned by
`_build_dependency_graph` — passes the cycle check, the plan produced by
`_create_execution_plan` is a valid topological order: every in-graph
dependency of every planned task occupies an earlier position of the plan.
(The proof in fact never needs acyclicity: tasks whose dependencies are never
satisfied are simply left out of the plan.) -/
theorem execution_plan_is_topological (intents : List TaskIntent)
    (hacyc : hasCircularDependency (buildDependencyGraph intents) = false) :
    isValidTopo (buildDependencyGraph intents)
      (createExecutionPlan (buildDependencyGraph intents) intents) :=
  createExecutionPlan_topo (buildDependencyGraph intents) intents
    (buildDependencyGraph_keys_nodup intents)

/-- Witness for C1: a concrete two-intent session (`notion_2` depends on
`gmail_1`) whose graph is acyclic, together with the topological-order
property of its plan. -/
theorem execution_plan_is_topological_witness :
    hasCircularDependency (buildDependencyGraph exIntentsAcyclic) = false ∧
    isValidTopo (buildDependencyGraph exIntentsAcyclic)
      (createExecutionPlan (buildDependencyGraph exIntentsAcyclic)
        exIntentsAcyclic) :=
  ⟨by decide, execution_plan_is_topological exIntentsAcyclic (by decide)⟩

/-! ## Exclusion of id-less intents: claim C10 -/

lemma dictKeys_dictInsert_mem {α : Type} (d : List (String × α))
    (k : String) (v : α) (k' : String)
    (h : k' ∈ dictKeys (dictInsert d k v)) : k' ∈ dictKeys d ∨ k' = k := by
  unfold dictInsert at h
  by_cases hc : d.any (fun p => p.1 == k)
  · rw [if_pos hc, dictKeys_map_overwrite] at h
    exact Or.inl h
  · rw [if_neg hc, dictKeys_append] at h
    rcases List.mem_append.mp h with h' | h'
    · exact Or.inl h'
    · simp only [dictKeys, List.map_cons, List.map_nil,
        List.mem_singleton] at h'
      exact Or.inr h'

lemma graphStep_keys_mem (acc : Graph) (i : TaskIntent) (k : String)
    (h : k ∈ dictKeys (graphStep acc i)) :
    k ∈ dictKeys acc ∨ (truthyTaskId i = true ∧ i.taskId = some k) := by
  unfold graphStep at h
  cases hti : i.taskId with
  | none =>
    rw [hti] at h
    exact Or.inl h
  | some tid =>
    rw [hti] at h
    by_cases hne : tid ≠ ""
    · simp only [if_pos hne] at h
      rcases dictKeys_dictInsert_mem acc tid i.dependencies k h with h' | h'
      · exact Or.inl h'
      · subst h'
        exact Or.inr ⟨by simp [truthyTaskId, hti, hne], rfl⟩
    · simp only [if_neg hne] at h
      exact Or.inl h

lemma buildGraphRaw_keys_from (intents : List TaskIntent) :
    ∀ (acc : Graph) (k : String),
      k ∈ dictKeys (intents.foldl graphStep acc) →
      k ∈ dictKeys acc ∨
        ∃ i ∈ intents, truthyTaskId i = true ∧ i.taskId = some k := by
  induction intents with
  | nil => intro acc k h; exact Or.inl h
  | cons i rest ih =>
    intro acc k h
    rw [List.foldl_cons] at h
    rcases ih _ k h with h' | h'
    · rcases graphStep_keys_mem acc i k h' with h'' | h''
      · exact Or.inl h''
      · exact Or.inr ⟨i, List.mem_cons_self _ _, h''.1, h''.2⟩
    · rcases h' with ⟨j, hj, hjt, hjk⟩
      exact Or.inr ⟨j, List.mem_cons_of_mem _ hj, hjt, hjk⟩

lemma buildDependencyGraph_keys_from (intents : List TaskIntent) (k : String)
    (h : k ∈ dictKeys (buildDependencyGraph intents)) :
    ∃ i ∈ intents, truthyTaskId i = true ∧ i.taskId = some k := by
  unfold buildDependencyGraph at h
  have hraw : k ∈ dictKeys (buildGraphRaw intents) := by
    by_cases hcyc : hasCircularDependency (buildGraphRaw intents)
    · rw [if_pos hcyc, dictKeys_resolve] at h
      exact h
    · rw [if_neg hcyc] at h
      exact h
  unfold buildGraphRaw at hraw
  rcases buildGraphRaw_keys_from intents [] k hraw with h' | h'
  · cases h'
  · exact h'

lemma key_ne_empty_of_truthy (i : TaskIntent) (k : String)
    (ht : truthyTaskId i = true) (hk : i.taskId = some k) : k ≠ "" := by
  unfold truthyTaskId at ht
  rw [hk] at ht
  simpa using ht

lemma graphStep_falsy (acc : Graph) (i : TaskIntent)
    (ht : ¬ truthyTaskId i = true) : graphStep acc i = acc := by
  unfold truthyTaskId at ht
  unfold graphStep
  cases hti : i.taskId with
  | none => rfl
  | some tid =>
    rw [hti] at ht
    have : ¬ tid ≠ "" := by simpa using ht
    simp [this]

lemma buildGraphRaw_filter (intents : List TaskIntent) :
    buildGraphRaw (intents.filter truthyTaskId) = buildGraphRaw intents := by
  unfold buildGraphRaw
  suffices h : ∀ acc : Graph,
      (intents.filter truthyTaskId).foldl graphStep acc =
        intents.foldl graphStep acc from h []
  induction intents with
  | nil => intro acc; rfl
  | cons i rest ih =>
    intro acc
    by_cases ht : truthyTaskId i = true
    · rw [List.filter_cons_of_pos ht, List.foldl_cons, List.foldl_cons]
      exact ih _
    · rw [List.filter_cons_of_neg (by simpa using ht), List.foldl_cons,
        graphStep_falsy acc i ht]
      exact ih _

lemma buildDependencyGraph_filter (intents : List TaskIntent) :
    buildDependencyGraph (intents.filter truthyTaskId) =
      buildDependencyGraph intents := by
  unfold buildDependencyGraph
  rw [buildGraphRaw_filter]

lemma intentMapGet_filter (intents : List TaskIntent) (tid : String)
    (hne : tid ≠ "") :
    intentMapGet (intents.filter truthyTaskId) tid =
      intentMapGet intents tid := by
  unfold intentMapGet
  suffices h : ∀ acc : Option TaskIntent,
      (intents.filter truthyTaskId).foldl
        (fun acc i => if i.taskId == some tid then some i else acc) acc =
      intents.foldl
        (fun acc i => if i.taskId == some tid then some i else acc) acc from
    h none
  induction intents with
  | nil => intro acc; rfl
  | cons i rest ih =>
    intro acc
    by_cases ht : truthyTaskId i = true
    · rw [List.filter_cons_of_pos ht, List.foldl_cons, List.foldl_cons]
      exact ih _
    · rw [List.filter_cons_of_neg (by simpa using ht), List.foldl_cons]
      have hstep : (if i.taskId == some tid then some i else acc) = acc := by
        unfold truthyTaskId at ht
        cases hti : i.taskId with
        | none => simp
        | some s =>
          rw [hti] at ht
          have hs : s = "" := by simpa using ht
          subst hs
          have : (some "" == some tid) = false := by
            simpa using Ne.symm hne
          simp [this]
      rw [hstep]
      exact ih _

lemma stepFold_congr (cur : String) (p1 p2 : String → Nat) :
    ∀ gr : Graph, (∀ pr ∈ gr, p1 pr.1 = p2 pr.1) →
      ∀ (deg : String → Int) (q : List (Nat × String)),
        stepFold cur p1 gr deg q = stepFold cur p2 gr deg q := by
  intro gr
  induction gr with
  | nil => intro _ deg q; rfl
  | cons hd rest ih =>
    obtain ⟨t, deps⟩ := hd
    intro h deg q
    have ht : p1 t = p2 t := h (t, deps) (List.mem_cons_self _ _)
    have hrest : ∀ pr ∈ rest, p1 pr.1 = p2 pr.1 :=
      fun pr hpr => h pr (List.mem_cons_of_mem _ hpr)
    simp only [stepFold]
    by_cases hmem : cur ∈ deps
    · rw [if_pos hmem, if_pos hmem]
      by_cases hz : deg t - 1 = 0
      · rw [if_pos hz, if_pos hz, ht]
        exact ih hrest _ _
      · rw [if_neg hz, if_neg hz]
        exact ih hrest _ _
    · rw [if_neg hmem, if_neg hmem]
      exact ih hrest _ _

lemma kahnLoop_congr (g : Graph) (p1 p2 : String → Nat)
    (h : ∀ pr ∈ g, p1 pr.1 = p2 pr.1) :
    ∀ (fuel : Nat) (deg : String → Int) (q : List (Nat × String))
      (order : List String),
      kahnLoop g p1 fuel deg q order = kahnLoop g p2 fuel deg q order := by
  intro fuel
  induction fuel with
  | zero => intro deg q order; rfl
  | succ n ih =>
    intro deg q order
    match q with
    | [] => rfl
    | (pr, cur) :: rest =>
      simp only [kahnLoop]
      rw [stepFold_congr cur p1 p2 g h deg rest]
      exact ih _ _ _

lemma seedQueue_congr (g : Graph) (p1 p2 : String → Nat)
    (h : ∀ t ∈ dictKeys g, p1 t = p2 t) :
    seedQueue g p1 = seedQueue g p2 := by
  unfold seedQueue
  congr 1
  apply List.filterMap_congr
  intro t ht
  rw [h t ht]

lemma createExecutionPlan_congr (g : Graph) (i1 i2 : List TaskIntent)
    (h : ∀ t ∈ dictKeys g,
      getPriorityValue (intentMapGet i1 t) =
        getPriorityValue (intentMapGet i2 t)) :
    createExecutionPlan g i1 = createExecutionPlan g i2 := by
  simp only [createExecutionPlan]
  rw [seedQueue_congr g _ _ h]
  apply kahnLoop_congr
  intro pr hpr
  exact h pr.1 (List.mem_map.mpr ⟨pr, hpr, rfl⟩)

lemma decompose_filter (intents : List TaskIntent) :
    decompose (intents.filter truthyTaskId) = decompose intents := by
  simp only [decompose]
  rw [buildDependencyGraph_filter]
  have hplan : createExecutionPlan (buildDependencyGraph intents)
      (intents.filter truthyTaskId) =
      createExecutionPlan (buildDependencyGraph intents) intents := by
    apply createExecutionPlan_congr
    intro t ht
    rcases buildDependencyGraph_keys_from intents t ht with ⟨i, _, hti, hkt⟩
    rw [intentMapGet_filter intents t (key_ne_empty_of_truthy i t hti hkt)]
  rw [hplan]

/-- C10: an intent whose parameters hold no truthy `task_id` is silently
excluded from decomposition: dropping all such intents changes neither the
graph, the plan nor the parallel groups; every graph key stems from an intent
with a truthy id (so an id-less intent contributes no key, hence no plan
position and no group entry); and the decomposer still reports success with
no error. -/
theorem idless_intents_excluded (intents : List TaskIntent)
    (params : List (String × String)) :
    decompose (intents.filter truthyTaskId) = decompose intents ∧
    (∀ k ∈ dictKeys (buildDependencyGraph intents),
      k ≠ "" ∧ ∃ i ∈ intents, truthyTaskId i = true ∧ i.taskId = some k) ∧
    (taskDecomposerExecute intents params).status = .completed ∧
    (taskDecomposerExecute intents params).error = none := by
  refine ⟨decompose_filter intents, ?_, rfl, rfl⟩
  intro k hk
  rcases buildDependencyGraph_keys_from intents k hk with ⟨i, hi, hti, hkt⟩
  exact ⟨key_ne_empty_of_truthy i k hti hkt, i, hi, hti, hkt⟩

/-- Witness for C10: a three-intent session containing an id-less intent
decomposes exactly as with that intent removed, the key `gmail_1` indeed
comes from a truthy intent, and the decomposer reports COMPLETED. -/
theorem idless_intents_excluded_witness :
    decompose (exIntentsMixed.filter truthyTaskId) = decompose exIntentsMixed ∧
    truthyTaskId exIntentNoId = false ∧
    "gmail_1" ≠ "" ∧
    (taskDecomposerExecute exIntentsMixed []).status = .completed := by
  refine ⟨(idless_intents_excluded exIntentsMixed []).1, by decide, ?_, ?_⟩
  · exact ((idless_intents_excluded exIntentsMixed []).2.1 "gmail_1"
      (by decide)).1
  · exact (idless_intents_excluded exIntentsMixed []).2.2.1

end GeminiAsst
